import Mathlib

/-!
# Verification of the QuizCraft grounding/generation pipeline

A shallow embedding of the core pipeline of the QuizCraft repository
(`quizcraft/retrieval.py`, `quizcraft/schemas.py`, `quizcraft/utils.py`,
`quizcraft/pipeline.py`) together with proofs and refutations of the
testable properties stated in the specification.

Modelling conventions:

* Python `str` is modelled as `List Char` (`Str`); Python `len`, slicing and
  the `in` substring test then correspond to `List.length`, `take`/`drop`
  and `List.isInfixOf`, all counted in code points exactly as in Python.
* Python `float` is modelled as `ℚ`.  `math.sqrt` has no exact computable
  counterpart on `ℚ`, so the functions that use it take an explicit
  function argument `msqrt : ℚ → ℚ` standing for `math.sqrt`; every guard
  of the source is expressed through `msqrt` exactly as written.
* The external Ollama client is modelled by a deterministic embedding
  function `embed : Str → List ℚ` and, for `chat_json`, by a stream
  (`List PyVal`) of successive JSON replies; a reply that the source would
  obtain from a raised exception is the empty dict (the source catches the
  exception and proceeds with `data = {}`), so exception outcomes are
  represented by putting an empty dict in the stream.  Prompt strings are
  only ever passed to the external model, so prompt construction
  (`_format_evidence`, `_format_mini_summaries`) is not embedded.
* Generator JSON output is modelled by the inductive `PyVal`
  (JSON floats are omitted: no claim depends on them).
-/

set_option linter.unnecessarySeqFocus false
set_option linter.unusedTactic false
set_option linter.unnecessarySimpa false

namespace QuizCraft

/-- Python strings, as lists of code points. -/
abbrev Str := List Char

/-- Python whitespace (`str.strip`, `\s`): ASCII whitespace plus the
Unicode space characters that occur in this code base's data
(NBSP, ideographic space, line/paragraph separator). -/
def pySpace (c : Char) : Bool :=
  c = ' ' || c = '\t' || c = '\n' || c = '\r' || c = '\x0b' || c = '\x0c' ||
  c = '\u00A0' || c = '\u3000' || c = '\u2028' || c = '\u2029'

/-- Python `str.strip()`. -/
def pyStrip (s : Str) : Str :=
  (s.dropWhile pySpace).reverse.dropWhile pySpace |>.reverse

/-- Python's `\w` (`re.UNICODE`): letters, digits and underscore.  Modelled
for the scripts appearing in this code base: ASCII alphanumerics,
underscore, CJK ideographs and fullwidth alphanumerics. -/
def pyWordChar (c : Char) : Bool :=
  c.isAlphanum || c = '_' ||
  (0x4e00 ≤ c.toNat && c.toNat ≤ 0x9fff) ||
  (0xff10 ≤ c.toNat && c.toNat ≤ 0xff19) ||
  (0xff21 ≤ c.toNat && c.toNat ≤ 0xff3a) ||
  (0xff41 ≤ c.toNat && c.toNat ≤ 0xff5a)

/-- ASCII lower-casing, as Python `str.lower()` acts on the characters used
here (CJK characters are caseless and unchanged). -/
def pyLowerChar (c : Char) : Char :=
  if 'A' ≤ c ∧ c ≤ 'Z' then Char.ofNat (c.toNat + 32) else c

def pyLower (s : Str) : Str := s.map pyLowerChar

/-- ASCII upper-casing (Python `str.upper()` on the characters used here). -/
def pyUpperChar (c : Char) : Char :=
  if 'a' ≤ c ∧ c ≤ 'z' then Char.ofNat (c.toNat - 32) else c

def pyUpper (s : Str) : Str := s.map pyUpperChar

/-- Helper of `collapseWs`: the flag records whether the previous character
was whitespace (and was already emitted as the single `' '` of its run). -/
def collapseWsAux : Bool → Str → Str
  | _, [] => []
  | prevSpace, c :: rest =>
    if pySpace c then
      if prevSpace then collapseWsAux true rest
      else ' ' :: collapseWsAux true rest
    else c :: collapseWsAux false rest

/-- Replace every maximal run of whitespace by a single space
(the effect of `re.sub(r"\s+", " ", ·)`). -/
def collapseWs (s : Str) : Str := collapseWsAux false s

/-- `utils.normalize_line`: replace NBSP by plain space, strip, and collapse
inner whitespace runs.  (NBSP is whitespace for both `strip` and `\s`, so
the initial NBSP→space substitution is subsumed by `pyStrip`/`collapseWs`,
which treat every whitespace character alike.) -/
def normalize_line (s : Str) : Str := collapseWs (pyStrip s)

/-- Python `str.splitlines()` restricted to `'\n'` (the only line break
produced by the upstream chunker). -/
def pySplitlines (s : Str) : List Str := s.splitOn '\n'

/-- The character class of `utils._ALLOWED_CHAR_RE`:
ASCII alphanumerics, CJK ideographs, CJK symbols and punctuation
(U+3000–U+303F), fullwidth forms (U+FF00–U+FFEF), the extra punctuation
listed in the class, and whitespace. -/
def allowedChar (c : Char) : Bool :=
  c.isAlphanum ||
  (0x4e00 ≤ c.toNat && c.toNat ≤ 0x9fff) ||
  (0x3000 ≤ c.toNat && c.toNat ≤ 0x303f) ||
  (0xff00 ≤ c.toNat && c.toNat ≤ 0xffef) ||
  c = '(' || c = ')' || c = '"' || c = '\'' || c = '’' || c = '‘' ||
  c = '“' || c = '”' || c = '—' || c = '–' || c = '-' ||
  c = '…' || c = '·' || c = '•' || pySpace c

/-- `utils.allowed_char_ratio`. -/
def allowed_char_ratio (s : Str) : ℚ :=
  if s = [] then 0
  else ((s.filter allowedChar).length : ℚ) / (max 1 s.length : ℚ)

/-- Membership of a character in a literal set, spelled as a list. -/
def charIn (cs : List Char) (c : Char) : Bool := cs.contains c

/-- Does `s` contain a run of at least `n` consecutive characters from `cs`?
(`re.search` of `[...]{n,}`). -/
def hasRunOf (cs : List Char) (n : Nat) : Str → Bool
  | [] => false
  | s@(_ :: rest) =>
    n ≤ (s.takeWhile (charIn cs)).length || hasRunOf cs n rest

/-- `utils.is_low_info_line`. -/
def is_low_info_line (line : Str) : Bool :=
  if line = [] then true
  else
    let lower := pyStrip (pyLower line)
    if lower = "note".data ∨ lower = "notes".data ∨ lower = "page".data then true
    else if line.all Char.isDigit then true
    else if line.length ≤ 2 then true
    else if ((line.dedup.length : ℚ) / (max 1 line.length : ℚ) < 1/5) ∧ 5 < line.length then true
    else if ((line.filter pyWordChar).length : ℚ) / (max 1 line.length : ℚ) < 3/10 then true
    else if hasRunOf [ '-', '_', '=', '~' ] 4 line then true
    else if hasRunOf [ '*', '•', '·' ] 3 line then true
    else false

/-- `utils.is_noisy_line`. -/
def is_noisy_line (line : Str) : Bool :=
  line.contains '�' ||
  line.any (fun c => c.toNat ≤ 0x08 || (0x0b ≤ c.toNat && c.toNat ≤ 0x1f)) ||
  (8 ≤ line.length && allowed_char_ratio line < 6/10)

/-- Python `str.isupper()` on ASCII text: at least one cased character and
no lower-case cased character. -/
def pyIsUpper (s : Str) : Bool :=
  s.any (fun c => 'A' ≤ c ∧ c ≤ 'Z') && !s.any (fun c => 'a' ≤ c ∧ c ≤ 'z')

/-- `utils.detect_section_title`, as the boolean "a title was detected"
(the source returns the matched line or `None`; every caller either tests
truthiness or compares the result with the input line, and a detected
title is always the input line itself). -/
def detect_section_title (line : Str) : Bool :=
  -- `^第\s*\d+\s*[章節篇].*`
  (match line with
   | c :: rest =>
     c = '第' &&
       (let r1 := rest.dropWhile pySpace
        let ds := r1.takeWhile Char.isDigit
        let r2 := (r1.dropWhile Char.isDigit).dropWhile pySpace
        ds ≠ [] && (match r2 with
                    | k :: _ => k = '章' || k = '節' || k = '篇'
                    | [] => false))
   | [] => false) ||
  -- `^[0-9]+\.[0-9]+(\.[0-9]+)?\s+.+`  (lines contain no newline, so
  -- `\s+.+` holds iff the remainder starts with whitespace and has a
  -- further character)
  (let d1 := line.takeWhile Char.isDigit
   let r1 := line.dropWhile Char.isDigit
   d1 ≠ [] && (match r1 with
               | '.' :: r2 =>
                 let d2 := r2.takeWhile Char.isDigit
                 let r3 := r2.dropWhile Char.isDigit
                 d2 ≠ [] &&
                   (let r4 := match r3 with
                              | '.' :: r5 =>
                                if (r5.takeWhile Char.isDigit) ≠ [] then r5.dropWhile Char.isDigit
                                else r3
                              | _ => r3
                    match r4 with
                    | c :: r6 => pySpace c && r6 ≠ []
                    | [] => false)
               | _ => false)) ||
  -- `^[•▌■◆▍▶►]\s*\S+`
  (match line with
   | c :: rest =>
     charIn [ '•', '▌', '■', '◆', '▍', '▶', '►' ] c &&
       rest.dropWhile pySpace ≠ []
   | [] => false) ||
  -- `line.isupper() and 3 <= len(line) <= 30`
  (pyIsUpper line && 3 ≤ line.length && line.length ≤ 30)

/-! ## Chunk records and the evidence index (`quizcraft/retrieval.py`) -/

/-- A chunk record as produced by the external chunker:
`{chunk_id, page, section_title, text}` (the further `printed_page` field is
never read by the core pipeline). -/
structure Chunk where
  chunk_id : Str
  page : Int
  section_title : Str
  text : Str
deriving DecidableEq, Repr

/-- `sum(x * y for x, y in zip(a, b))`. -/
def dot_product (a b : List ℚ) : ℚ := ((a.zip b).map fun p => p.1 * p.2).sum

/-- `sum(x * x for x in a)` — the quantity under the square root in
`_cosine_similarity`'s norms. -/
def sum_sq (a : List ℚ) : ℚ := (a.map fun x => x * x).sum

/-- `retrieval._cosine_similarity`.  `msqrt` stands for `math.sqrt`
(`msqrt (sum_sq a)` is the source's `norm_a`); it is a parameter because
real square roots are not computable on `ℚ`.  All claims about this
function depend only on its guards and on comparisons of its values under
a fixed `msqrt`. -/
def cosine_similarity (msqrt : ℚ → ℚ) (a b : List ℚ) : ℚ :=
  if a = [] ∨ b = [] ∨ a.length ≠ b.length then 0
  else
    let dot := dot_product a b
    let norm_a := msqrt (sum_sq a)
    let norm_b := msqrt (sum_sq b)
    if norm_a = 0 ∨ norm_b = 0 then 0
    else dot / (norm_a * norm_b)

/-- `retrieval.build_index`: one embedding per chunk, in order (the progress
printing has no effect on the result). -/
def build_index (chunks : List Chunk) (embed : Str → List ℚ) : List (List ℚ) :=
  chunks.map fun chunk => embed chunk.text

/-- The scored pair list built by `search_index` before sorting:
`[(cos(query_emb, emb), chunk) for chunk, emb in zip(chunks, embeddings)]`. -/
def search_scored (msqrt : ℚ → ℚ) (query_emb : List ℚ) (chunks : List Chunk)
    (embeddings : List (List ℚ)) : List (ℚ × Chunk) :=
  (chunks.zip embeddings).map fun ce => (cosine_similarity msqrt query_emb ce.2, ce.1)

/-- The comparator of `scored.sort(key=lambda item: item[0], reverse=True)`:
a stable sort in descending score order.  Python's `list.sort` is stable,
as is `List.mergeSort`. -/
def score_desc (a b : ℚ × Chunk) : Bool := decide (b.1 ≤ a.1)

/-- `retrieval.search_index`. -/
def search_index (msqrt : ℚ → ℚ) (embed : Str → List ℚ) (query : Str)
    (chunks : List Chunk) (embeddings : List (List ℚ)) (top_k : Nat) : List Chunk :=
  let scored := search_scored msqrt (embed query) chunks embeddings
  ((scored.mergeSort score_desc).take top_k).map (·.2)

/-- The fixed battery of concept-probe queries of `retrieval.select_chunks`. -/
def selector_queries : List Str :=
  ["definition".data, "theorem".data, "algorithm".data, "conclusion".data,
   "summary".data, "keypoint".data, "重要".data, "結論".data, "定義".data,
   "方法".data, "例子".data]

/-- A chunk's score in `select_chunks`: maximum cosine similarity against
the probe-query embeddings (the query list is non-empty, so Python's `max`
is defined; it folds `max` over the values from the first one). -/
def select_score (msqrt : ℚ → ℚ) (embed : Str → List ℚ) (emb : List ℚ) : ℚ :=
  match selector_queries.map (fun q => cosine_similarity msqrt emb (embed q)) with
  | [] => 0
  | x :: xs => xs.foldl max x

/-- The descending stable sort of `select_chunks`, already projected to
chunks (the scores are not used after sorting). -/
def select_sorted (msqrt : ℚ → ℚ) (embed : Str → List ℚ) (chunks : List Chunk)
    (embeddings : List (List ℚ)) : List Chunk :=
  let scored := (chunks.zip embeddings).map fun ce => (select_score msqrt embed ce.2, ce.1)
  (scored.mergeSort score_desc).map (·.2)

/-- The bucket key of `select_chunks`:
`chunk.get("section_title") or f"page_{chunk['page']}"` (an empty section
title is falsy). -/
def bucket_key (c : Chunk) : Str :=
  if c.section_title = [] then "page_".data ++ (toString c.page).data
  else c.section_title

/-- `len(buckets)` of `select_chunks`: the number of distinct bucket keys
over the scored chunk list. -/
def select_bucket_count (msqrt : ℚ → ℚ) (embed : Str → List ℚ) (chunks : List Chunk)
    (embeddings : List (List ℚ)) : Nat :=
  ((select_sorted msqrt embed chunks embeddings).map bucket_key).dedup.length

/-- `max_per_bucket = max(1, top_k // max(1, len(buckets)))` (note: the
source uses floor division, not a ceiling). -/
def select_cap (top_k bucket_count : Nat) : Nat := max 1 (top_k / max 1 bucket_count)

/-- The greedy quota loop of `select_chunks`.  `counts` is the `buckets`
dict (every key starts at 0, so it is a plain function); the loop breaks
as soon as `top_k ≤ selected.length`, checked after each chunk exactly as
in the source.  Returns `(selected, remainder)`. -/
def select_loop (cap top_k : Nat) :
    List Chunk → (Str → Nat) → List Chunk → List Chunk → List Chunk × List Chunk
  | [], _, sel, rem => (sel, rem)
  | c :: rest, counts, sel, rem =>
    let b := bucket_key c
    let n := counts b
    if n < cap then
      let sel' := sel ++ [c]
      if top_k ≤ sel'.length then (sel', rem)
      else select_loop cap top_k rest (fun k => if k = b then n + 1 else counts k) sel' rem
    else
      let rem' := rem ++ [c]
      if top_k ≤ sel.length then (sel, rem')
      else select_loop cap top_k rest counts sel rem'

/-- The main quota phase of `select_chunks`: the loop run on the sorted
chunks with all bucket counters at zero.  Returns `(selected, remainder)`. -/
def select_main (msqrt : ℚ → ℚ) (embed : Str → List ℚ) (chunks : List Chunk)
    (embeddings : List (List ℚ)) (top_k : Nat) : List Chunk × List Chunk :=
  select_loop (select_cap top_k (select_bucket_count msqrt embed chunks embeddings)) top_k
    (select_sorted msqrt embed chunks embeddings) (fun _ => 0) [] []

/-- `retrieval.select_chunks`.  The `seed` argument is accepted as in the
source, where `random.seed(seed)` is called but no random draw follows, so
it cannot influence the result. -/
def select_chunks (msqrt : ℚ → ℚ) (embed : Str → List ℚ) (chunks : List Chunk)
    (embeddings : List (List ℚ)) (top_k : Nat) (seed : Int) (balanced : Bool) :
    List Chunk :=
  let _ := seed
  let sorted := select_sorted msqrt embed chunks embeddings
  if !balanced then sorted.take top_k
  else
    let sr := select_main msqrt embed chunks embeddings top_k
    (if sr.1.length < top_k then sr.1 ++ sr.2.take (top_k - sr.1.length) else sr.1).take top_k

/-! ## Dynamic generator output (`PyVal`) -/

/-- A dynamically-typed Python/JSON value, as returned by the generator
backend.  JSON floats are omitted (no claim depends on them); dicts are
association lists with distinct keys, in insertion order. -/
inductive PyVal where
  | vnone
  | vbool (b : Bool)
  | vint (n : Int)
  | vstr (s : Str)
  | vlist (xs : List PyVal)
  | vdict (kvs : List (Str × PyVal))

/-- `d.get(k)` on a dict body: `none` means the key is absent. -/
def dget (kvs : List (Str × PyVal)) (k : Str) : Option PyVal :=
  (kvs.find? (fun kv => decide (kv.1 = k))).map (·.2)

/-- Python truthiness of a value. -/
def truthy : PyVal → Bool
  | .vnone => false
  | .vbool b => b
  | .vint n => decide (n ≠ 0)
  | .vstr s => decide (s ≠ [])
  | .vlist xs => !xs.isEmpty
  | .vdict kvs => !kvs.isEmpty

/-- `a or b` on the results of two `.get` calls, as in
`item.get("chunk_id") or item.get("chunkId")`: the first operand is used
when present and truthy, otherwise the second is returned as-is. -/
def orFalsy (a b : Option PyVal) : Option PyVal :=
  match a with
  | some v => if truthy v then some v else b
  | none => b

mutual

/-- Python `str(v)`. -/
def pyStrOf : PyVal → Str
  | .vnone => "None".data
  | .vbool b => if b then "True".data else "False".data
  | .vint n => (toString n).data
  | .vstr s => s
  | .vlist xs => Char.ofNat 91 :: pyReprItems xs ++ [Char.ofNat 93]
  | .vdict kvs => Char.ofNat 123 :: pyReprPairs kvs ++ [Char.ofNat 125]
termination_by v => (sizeOf v, 0)
decreasing_by all_goals (simp_wf <;> omega)

/-- Python `repr(v)` (as used for elements when rendering containers). -/
def pyReprOf : PyVal → Str
  | .vstr s => '\'' :: (s ++ ['\''])
  | v => pyStrOf v
termination_by v => (sizeOf v, 1)
decreasing_by all_goals (simp_wf <;> omega)

/-- Comma-separated reprs of list items. -/
def pyReprItems : List PyVal → Str
  | [] => []
  | [x] => pyReprOf x
  | x :: y :: xs => pyReprOf x ++ ',' :: ' ' :: pyReprItems (y :: xs)
termination_by xs => (sizeOf xs, 0)
decreasing_by all_goals (simp_wf <;> omega)

/-- Comma-separated `'key': value` reprs of dict entries. -/
def pyReprPairs : List (Str × PyVal) → Str
  | [] => []
  | [(k, v)] => '\'' :: k ++ '\'' :: ':' :: ' ' :: pyReprOf v
  | (k, v) :: kv' :: rest =>
    '\'' :: k ++ '\'' :: ':' :: ' ' :: pyReprOf v ++ ',' :: ' ' :: pyReprPairs (kv' :: rest)
termination_by kvs => (sizeOf kvs, 0)
decreasing_by all_goals (simp_wf <;> omega)

end

/-- Decimal value of an all-digit string. -/
def digitsToNat (s : Str) : Nat :=
  s.foldl (fun acc c => 10 * acc + (c.toNat - 48)) 0

/-- Python `int(s)` for a string: optional surrounding whitespace, optional
sign, one or more digits; anything else raises (`none`). -/
def parseIntStr (s : Str) : Option Int :=
  let t := pyStrip s
  match t with
  | '-' :: ds =>
    if ds ≠ [] ∧ ds.all Char.isDigit then some (-(digitsToNat ds : Int)) else none
  | '+' :: ds =>
    if ds ≠ [] ∧ ds.all Char.isDigit then some (digitsToNat ds : Int) else none
  | ds =>
    if ds ≠ [] ∧ ds.all Char.isDigit then some (digitsToNat ds : Int) else none

/-- Python `int(v)` under `try/except (ValueError, TypeError)`: `none` is the
raising case.  (`int(True) = 1`, `int(None)`/`int([...])`/`int({...})`
raise `TypeError`, which the callers catch.) -/
def pyToInt : PyVal → Option Int
  | .vint n => some n
  | .vbool b => some (cond b 1 0)
  | .vstr s => parseIntStr s
  | _ => none

/-! ## Schemas (`quizcraft/schemas.py`) -/

structure Citation where
  page : Int
  chunk_id : Str
deriving DecidableEq, Repr

structure EvidenceQuote where
  page : Int
  chunk_id : Str
  quote : Str
deriving DecidableEq, Repr

structure Concept where
  name : Str
  description : Str
  citations : List Citation
  difficulty : Str
deriving DecidableEq, Repr

structure MiniSummary where
  page : Int
  chunk_id : Str
  mini_summary : Str
  keywords : List Str
  citations : List Citation
  evidence_quotes : List EvidenceQuote
deriving DecidableEq, Repr

/-- A normalized question record (`schemas.Question`, a `TypedDict` with
`total=False`).  Optional fields whose every read in the source uses a
`get` with the default shown here are modelled by that default directly
(`choices`/`step_by_step` default `[]`, string fields default `""`);
`correct_option` is kept as an `Option` because the source distinguishes
its absence.  `type` is `total=False` as well, but every question built by
the source carries a non-empty type, so the empty string doubles as "field
absent". -/
structure Question where
  id : Str := []
  type : Str := []
  question : Str := []
  choices : List Str := []
  answer : Str := []
  correct_option : Option Str := none
  rationale : Str := []
  citations : List Citation := []
  evidence_quotes : List EvidenceQuote := []
  difficulty : Str := []
  concept_tags : List PyVal := []
  step_by_step : List Str := []
  final_answer : Str := []

/-- The summary data (`schemas.SummarySection`, `schemas.SummaryBlock`). -/
structure SummarySection where
  title : Str
  summary : Str
  citations : List Citation
deriving DecidableEq, Repr

structure SummaryBlock where
  overview : Str
  sections : List SummarySection
  keypoints : List Str
deriving DecidableEq, Repr

/-- `v is None`. -/
def isNone : PyVal → Bool
  | .vnone => true
  | _ => false

/-- Python `needle in hay` on strings: contiguous-substring test. -/
def strIn (needle : Str) : Str → Bool
  | [] => needle.isPrefixOf []
  | hay@(_ :: rest) => needle.isPrefixOf hay || strIn needle rest

/-- One entry of `schemas._normalize_citations`' loop: `none` when the
entry is skipped (`continue`). -/
def normalize_citation_item : PyVal → Option Citation
  | .vdict kv =>
    let page := (dget kv "page".data).getD .vnone
    let chunk_id := (orFalsy (dget kv "chunk_id".data) (dget kv "chunkId".data)).getD .vnone
    if isNone page || isNone chunk_id then none
    else
      match pyToInt page with
      | some page_num => some ⟨page_num, pyStrOf chunk_id⟩
      | none => none
  | _ => none

/-- `schemas._normalize_citations` (the identical private copy in
`pipeline.py` is the same function). -/
def normalize_citations (raw : Option PyVal) : List Citation :=
  match raw with
  | some (.vlist items) => items.filterMap normalize_citation_item
  | _ => []

/-- One entry of `schemas._normalize_evidence_quotes`' loop. -/
def normalize_evidence_quote_item : PyVal → Option EvidenceQuote
  | .vdict kv =>
    let page := (dget kv "page".data).getD .vnone
    let chunk_id := (orFalsy (dget kv "chunk_id".data) (dget kv "chunkId".data)).getD .vnone
    let quote := pyStrip (pyStrOf ((dget kv "quote".data).getD (.vstr [])))
    if isNone page || isNone chunk_id || quote.isEmpty then none
    else
      match pyToInt page with
      | some page_num => some ⟨page_num, pyStrOf chunk_id, quote⟩
      | none => none
  | _ => none

/-- `schemas._normalize_evidence_quotes`. -/
def normalize_evidence_quotes (raw : Option PyVal) : List EvidenceQuote :=
  match raw with
  | some (.vlist items) => items.filterMap normalize_evidence_quote_item
  | _ => []

/-- The separator class `[\s\).、:-]` of `schemas._strip_choice_prefix`. -/
def choiceSepChar (c : Char) : Bool :=
  pySpace c || charIn [')', '.', '、', ':', '-'] c

/-- `schemas._strip_choice_prefix`: strip, remove a leading choice letter
`A`–`D`/`a`–`d` followed by one or more separator characters, strip
again. -/
def strip_choice_head (text : Str) : Str :=
  let t := pyStrip text
  match t with
  | c :: c2 :: rest =>
    if charIn ['A', 'B', 'C', 'D', 'a', 'b', 'c', 'd'] c ∧ choiceSepChar c2
    then pyStrip ((c2 :: rest).dropWhile choiceSepChar)
    else t
  | _ => t

/-- `schemas._choice_text`: for dicts, the first of the keys
`text`, `label`, `content`, `choice`, `value` that is present with a
truthy value; otherwise `str(choice)`; stripped. -/
def choice_text (choice : PyVal) : Str :=
  match choice with
  | .vdict kv =>
    let keys := ["text".data, "label".data, "content".data, "choice".data, "value".data]
    match keys.findSome? (fun k =>
      match dget kv k with
      | some v => if truthy v then some v else none
      | none => none) with
    | some v => pyStrip (pyStrOf v)
    | none => pyStrip (pyStrOf choice)
  | v => pyStrip (pyStrOf v)

/-- The letter of choice index `idx`: `chr(ord('A') + idx)`. -/
def choiceLetter (idx : Nat) : Char := Char.ofNat (65 + idx)

/-- `schemas._normalize_mcq_choices`: the first four raw choices, each
cleaned and re-prefixed with its own letter (`f"{prefix}{raw}".strip()`). -/
def normalize_mcq_choices (choices : List PyVal) : List Str :=
  (choices.take 4).enum.map fun ic =>
    let raw := strip_choice_head (choice_text ic.2)
    pyStrip (choiceLetter ic.1 :: ' ' :: raw)

/-- The truthy-answer variants canonicalized to `"true"` by
`schemas.normalize_question`, and the falsy ones for `"false"`. -/
def tfTrueSet : List Str :=
  ["t".data, "true".data, "yes".data, "y".data, "對".data, "正确".data, "正確".data]

def tfFalseSet : List Str :=
  ["f".data, "false".data, "no".data, "n".data, "錯".data, "错误".data, "錯誤".data]

/-- The `correct` string of `normalize_question`'s mcq branch:
`str(raw.get("correct_option") or raw.get("answer", "")).strip().upper()`. -/
def mcq_correct (raw : List (Str × PyVal)) : Str :=
  pyUpper (pyStrip (pyStrOf
    ((orFalsy (dget raw "correct_option".data)
      (some ((dget raw "answer".data).getD (.vstr [])))).getD .vnone)))

/-- The fallback inference of the mcq branch: the first choice whose
lower-cased text contains the lower-cased, de-prefixed answer. -/
def mcq_co_infer (raw : List (Str × PyVal)) (choices : List Str) : Option Str :=
  let answer_text := strip_choice_head (pyStrOf ((dget raw "answer".data).getD (.vstr [])))
  ((choices.enum.find? fun ic =>
      decide (answer_text ≠ []) && strIn (pyLower answer_text) (pyLower ic.2)).map
    fun ic => [choiceLetter ic.1])

/-- The `correct_option` value assigned by the mcq branch: the first
character of `correct` when it is an option letter, otherwise the
inferred letter (the source's two sequential assignments, folded). -/
def mcq_correct_option (raw : List (Str × PyVal)) (choices : List Str) : Option Str :=
  match mcq_correct raw with
  | c :: _ =>
    if charIn ['A', 'B', 'C', 'D'] c then some [c]
    else mcq_co_infer raw choices
  | [] => mcq_co_infer raw choices

/-- The resolved question type of `normalize_question`: the lower-cased
`type` field when recognized, else `"tf"`. -/
def normalize_q_type (raw : List (Str × PyVal)) : Str :=
  let q_type0 := pyLower (pyStrOf ((dget raw "type".data).getD (.vstr "tf".data)))
  if q_type0 = "tf".data ∨ q_type0 = "mcq".data ∨ q_type0 = "short".data ∨
     q_type0 = "calc".data
  then q_type0 else "tf".data

/-- `schemas.normalize_question`. -/
def normalize_question (raw : List (Str × PyVal)) (fallback_id : Str) : Question :=
  let q_type := normalize_q_type raw
  let choices_raw : List PyVal :=
    if q_type = "mcq".data then
      match dget raw "choices".data with
      | some (.vlist xs) => xs
      | _ => []
    else []
  let base : Question :=
    { id := pyStrOf ((orFalsy (dget raw "id".data) (some (.vstr fallback_id))).getD .vnone)
      type := q_type
      question := pyStrip (pyStrOf ((dget raw "question".data).getD (.vstr [])))
      answer := pyStrip (pyStrOf ((dget raw "answer".data).getD (.vstr [])))
      rationale := pyStrip (pyStrOf ((dget raw "rationale".data).getD (.vstr [])))
      citations := normalize_citations (dget raw "citations".data)
      evidence_quotes := normalize_evidence_quotes (dget raw "evidence_quotes".data)
      difficulty := pyLower (pyStrOf ((dget raw "difficulty".data).getD (.vstr "medium".data)))
      concept_tags :=
        match dget raw "concept_tags".data with
        | some (.vlist xs) => xs
        | _ => [] }
  if q_type = "mcq".data then
    let choices := normalize_mcq_choices choices_raw
    let co := mcq_correct_option raw choices
    -- the source sets `answer = correct_option` after the fact when the
    -- latter was assigned; folded into the construction here
    { base with
      choices := choices
      correct_option := co
      answer := match co with | some c => c | none => base.answer }
  else if q_type = "tf".data then
    let answer := pyLower base.answer
    if tfTrueSet.contains answer then { base with answer := "true".data }
    else if tfFalseSet.contains answer then { base with answer := "false".data }
    else base
  else if q_type = "calc".data then
    let steps :=
      match dget raw "step_by_step".data with
      | some (.vlist xs) => (xs.map fun st => pyStrip (pyStrOf st)).filter (· ≠ [])
      | _ => []
    { base with
      step_by_step := steps
      final_answer := pyStrip (pyStrOf ((dget raw "final_answer".data).getD
        ((dget raw "answer".data).getD (.vstr [])))) }
  else base

/-- One entry of `schemas.normalize_concepts`' loop. -/
def normalize_concept_item : PyVal → Option Concept
  | .vdict kv =>
    let name := pyStrip (pyStrOf ((dget kv "name".data).getD (.vstr [])))
    if name = [] then none
    else some
      { name := name
        description := pyStrip (pyStrOf ((dget kv "description".data).getD (.vstr [])))
        citations := normalize_citations (dget kv "citations".data)
        difficulty := pyLower (pyStrOf ((dget kv "difficulty".data).getD (.vstr "medium".data))) }
  | _ => none

/-- `schemas.normalize_concepts`. -/
def normalize_concepts (raw : Option PyVal) : List Concept :=
  match raw with
  | some (.vlist items) => items.filterMap normalize_concept_item
  | _ => []

/-! ## Pipeline text helpers (`quizcraft/pipeline.py`) -/

/-- Length of a `p\d+_c\d+` match starting at the head of `s`
(`pipeline._CITATION_RE`; chunk ids are ASCII, so `\d` is `Char.isDigit`). -/
def citMatchLen (s : Str) : Option Nat :=
  match s with
  | 'p' :: rest =>
    let ds := rest.takeWhile Char.isDigit
    if ds = [] then none
    else
      match rest.drop ds.length with
      | '_' :: 'c' :: r3 =>
        let ds2 := r3.takeWhile Char.isDigit
        if ds2 = [] then none else some (3 + ds.length + ds2.length)
      | _ => none
  | _ => none

/-- `pipeline._has_citation`: `_CITATION_RE.search(text)`. -/
def has_citation (text : Str) : Bool :=
  text.tails.any fun t => (citMatchLen t).isSome

/-- `re.sub(r"p\d+_c\d+", "", ·)` (used on keypoints). -/
def removeCitationTags : Str → Str
  | [] => []
  | c :: rest =>
    match citMatchLen (c :: rest) with
    | some m => removeCitationTags (rest.drop (m - 1))
    | none => c :: removeCitationTags rest
termination_by s => s.length
decreasing_by
  · simp only [List.length_cons, List.length_drop]; omega
  · simp only [List.length_cons]; omega

/-- Does one alternative of `pipeline._META_QUESTION_RE` match at the head
of the (already lower-cased) text?  `chunk(?:_id)?` matches wherever
`chunk` does, so only the mandatory part is tested; `page\b` requires a
word boundary after `page`. -/
def metaAt (s : Str) : Bool :=
  ["哪一頁".data, "哪一段".data, "頁碼".data, "頁號".data, "頁面".data,
   "出處".data, "來源".data, "段落".data].any (fun w => w.isPrefixOf s) ||
  ("page".data.isPrefixOf s &&
    (match s.drop 4 with
     | [] => true
     | c :: _ => !pyWordChar c)) ||
  "chunk".data.isPrefixOf s ||
  (citMatchLen s).isSome

/-- `pipeline._is_meta_question` (the regex is case-insensitive, hence the
lower-casing; its CJK alternatives are caseless). -/
def is_meta_question (text : Str) : Bool :=
  text ≠ [] && (pyLower text).tails.any metaAt

/-- `pipeline._QUESTION_WORD_RE.search`. -/
def has_question_word (s : Str) : Bool :=
  ["什麼".data, "為何".data, "如何".data, "哪".data, "幾".data, "多少".data,
   "是否".data, "能否".data, "可否".data, "嗎".data, "呢".data].any
    (fun w => strIn w s)

/-- `pipeline._is_question_sentence`. -/
def is_question_sentence (text : Str) : Bool :=
  text ≠ [] &&
  (let stripped := pyStrip text
   (match stripped.getLast? with
    | some c => c = '?' || c = '？'
    | none => false) ||
   (match stripped.getLast? with
    | some c => c = '嗎' || c = '呢'
    | none => false) ||
   has_question_word stripped)

/-- Length of a `(是否|是不是|能否|可否)` match at the head of `s`, trying the
alternatives in the source's order (Python alternation is leftmost-first). -/
def tfPhraseLen (s : Str) : Option Nat :=
  if "是否".data.isPrefixOf s then some 2
  else if "是不是".data.isPrefixOf s then some 3
  else if "能否".data.isPrefixOf s then some 2
  else if "可否".data.isPrefixOf s then some 2
  else none

/-- `re.sub(r"(是否|是不是|能否|可否)", "", ·)`. -/
def removeTfPhrases : Str → Str
  | [] => []
  | c :: rest =>
    match tfPhraseLen (c :: rest) with
    | some m => removeTfPhrases (rest.drop (m - 1))
    | none => c :: removeTfPhrases rest
termination_by s => s.length
decreasing_by
  · simp only [List.length_cons, List.length_drop]; omega
  · simp only [List.length_cons]; omega

/-- `pipeline._fix_tf_question`. -/
def fix_tf_question (text : Str) : Option Str :=
  if text = [] then none
  else
    let c0 := pyStrip text
    let c1 := (c0.reverse.dropWhile fun c => c = '？' || c = '?').reverse
    let c2 := pyStrip
      (if "請問".data.isPrefixOf c1 then c1.drop 2
       else if "請回答".data.isPrefixOf c1 then c1.drop 3
       else c1)
    let c3 := removeTfPhrases c2
    let c4 := pyStrip
      (match c3.getLast? with
       | some c => if c = '嗎' ∨ c = '呢' then c3.dropLast else c3
       | none => c3)
    if c4 = [] then none
    else if is_question_sentence c4 then none
    else some c4

/-- One choice against `pipeline._BANNED_MCQ_RE` (case-insensitive). -/
def banned_mcq (choice : Str) : Bool :=
  let l := pyLower choice
  strIn "all of the above".data l || strIn "以上皆是".data l ||
  strIn "以上皆對".data l || strIn "以上皆為".data l || strIn "以上皆正確".data l

/-- `pipeline._has_banned_mcq_choice`. -/
def has_banned_mcq_choice (choices : List Str) : Bool :=
  choices.any banned_mcq

/-- `pipeline._chunk_body_lines`. -/
def chunk_body_lines (chunk : Chunk) : List Str :=
  let lines := ((pySplitlines chunk.text).map normalize_line).filter (· ≠ [])
  let lines :=
    match lines with
    | l0 :: rest =>
      if detect_section_title l0 || (decide (chunk.section_title ≠ []) && decide (l0 = chunk.section_title))
      then rest else lines
    | [] => []
  lines.filter fun line =>
    !(is_low_info_line line || is_noisy_line line) && !detect_section_title line

/-- `pipeline._is_low_info_chunk`. -/
def is_low_info_chunk (chunk : Chunk) : Bool :=
  let lines := chunk_body_lines chunk
  if lines = [] then true
  else
    let body := List.intercalate [' '] lines
    if body.length < 40 then true
    else if allowed_char_ratio body < 6/10 then true
    else false

/-- `pipeline._filter_low_info_chunks`. -/
def filter_low_info_chunks (chunks : List Chunk) : List Chunk :=
  chunks.filter fun chunk => !is_low_info_chunk chunk

/-- `pipeline._extract_quote_from_chunk` at its default arguments
(`min_len = 40`, `max_len = 80`; every caller uses the defaults). -/
def extract_quote_from_chunk (chunk : Chunk) : Str :=
  let lines := chunk_body_lines chunk
  match lines.find? (fun l => decide (40 ≤ l.length) && decide (7/10 ≤ allowed_char_ratio l)) with
  | some l => l.take 80
  | none =>
    match lines.find? (fun l => decide (20 ≤ l.length) && decide (7/10 ≤ allowed_char_ratio l)) with
    | some l => l.take 80
    | none =>
      let body := pyStrip (List.intercalate [' '] lines)
      if 40 ≤ body.length ∧ 7/10 ≤ allowed_char_ratio body then body.take 80
      else if 20 ≤ body.length ∧ 7/10 ≤ allowed_char_ratio body then body.take 80
      else []

/-- Split at every character satisfying `p`.  A run of separators yields
intervening empty pieces, which every caller immediately strips and
filters away, so this is equivalent to splitting on `[...]+`. -/
def splitOnPred (p : Char → Bool) (s : Str) : List Str :=
  s.foldr
    (fun c acc =>
      if p c then [] :: acc
      else
        match acc with
        | h :: t => (c :: h) :: t
        | [] => [[c]])
    [[]]

/-- Replace every run of `;`/`；` by a single `。`
(`re.sub(r"[;；]+", "。", ·)`); the flag records a pending run. -/
def collapseSemisAux : Bool → Str → Str
  | _, [] => []
  | inRun, c :: rest =>
    if c = ';' || c = '；' then
      if inRun then collapseSemisAux true rest
      else '。' :: collapseSemisAux true rest
    else c :: collapseSemisAux false rest

/-- `pipeline._split_sentences`. -/
def split_sentences (text : Str) : List Str :=
  let t1 := collapseSemisAux false text
  let t2 := t1.map fun c => if c = '\n' then '。' else c
  ((splitOnPred (fun c => c = '。' || c = '！' || c = '？') t2).map pyStrip).filter (· ≠ [])

/-- `pipeline._INCOMPLETE_SUFFIXES`. -/
def incompleteSuffixes : List Str :=
  ["並".data, "以及".data, "而且".data, "且".data, "並且".data, "引進".data,
   "推行".data, "包含".data, "包括".data, "例如".data, "如".data, "等".data,
   "等等".data, "並引進".data, "並將".data]

/-- `pipeline._is_incomplete_sentence`. -/
def is_incomplete_sentence (sentence : Str) : Bool :=
  let s := pyStrip sentence
  if s = [] then true
  else if incompleteSuffixes.any (fun suf => suf.isSuffixOf s) then true
  else if (match s.getLast? with
           | some c => charIn ['(', '（', '：', '，', '、', '；', '-', '—', '…'] c
           | none => false) then true
  else if (s.filter (· = '（')).length > (s.filter (· = '）')).length then true
  else if (s.filter (· = '(')).length > (s.filter (· = ')')).length then true
  else false

/-- The backfill loop of `pipeline._normalize_paragraph` (entered only when
the sentence count is below the floor; breaks as soon as the floor is
reached). -/
def paragraphBackfill (min_s : Nat) : List Str → List Str → List Str
  | sentences, [] => sentences
  | sentences, e :: rest =>
    let e := pyStrip e
    if e = [] ∨ is_incomplete_sentence e then paragraphBackfill min_s sentences rest
    else if sentences.contains e then paragraphBackfill min_s sentences rest
    else
      let s' := sentences ++ [e]
      if min_s ≤ s'.length then s' else paragraphBackfill min_s s' rest

/-- `pipeline._normalize_paragraph`. -/
def normalize_paragraph (text : Str) (min_s max_s : Nat) (fallback : List Str) : Str :=
  let sentences := (split_sentences text).filter fun s => !is_incomplete_sentence s
  let sentences :=
    if sentences.length < min_s then paragraphBackfill min_s sentences fallback else sentences
  let sentences := if max_s < sentences.length then sentences.take max_s else sentences
  if sentences = [] then []
  else List.intercalate ['。'] sentences ++ ['。']

/-- `pipeline._sentences_from_mini_summaries`. -/
def sentences_from_mini_summaries (minis : List MiniSummary) : List Str :=
  minis.foldl
    (fun acc ms =>
      (split_sentences ms.mini_summary).foldl
        (fun acc s =>
          if s = [] ∨ is_incomplete_sentence s then acc
          else if acc.contains s then acc
          else acc ++ [s])
        acc)
    []

/-- Length of a `\(\s*\)` match at the head of `s`. -/
def emptyParenLen (s : Str) : Option Nat :=
  match s with
  | '(' :: rest =>
    let sp := rest.takeWhile pySpace
    match rest.drop sp.length with
    | ')' :: _ => some (2 + sp.length)
    | _ => none
  | _ => none

/-- `re.sub(r"\(\s*\)", "", ·)`. -/
def removeEmptyParens : Str → Str
  | [] => []
  | c :: rest =>
    match emptyParenLen (c :: rest) with
    | some m => removeEmptyParens (rest.drop (m - 1))
    | none => c :: removeEmptyParens rest
termination_by s => s.length
decreasing_by
  · simp only [List.length_cons, List.length_drop]; omega
  · simp only [List.length_cons]; omega

/-- The cleaning applied to one raw keypoint in
`pipeline._normalize_keypoints`. -/
def normalize_keypoint_clean (kp : Str) : Str :=
  let kp := pyStrip (removeCitationTags kp)
  let kp := pyStrip (removeEmptyParens kp)
  (kp.reverse.dropWhile (charIn ['。', '；', ';', ' '])).reverse

/-- The keypoint backfill loop of `pipeline._normalize_keypoints` (the
`len < 5` test is at the top of each iteration). -/
def kpBackfill : List Str → List Str → List Str
  | cleaned, [] => cleaned
  | cleaned, s :: rest =>
    if 5 ≤ cleaned.length then cleaned
    else
      let cand := ((pyStrip s).reverse.dropWhile (· = '。')).reverse
      if cand = [] ∨ is_incomplete_sentence cand then kpBackfill cleaned rest
      else if cleaned.contains cand then kpBackfill cleaned rest
      else kpBackfill (cleaned ++ [cand]) rest

/-- `pipeline._normalize_keypoints`. -/
def normalize_keypoints (raw_keypoints fallback_sentences : List Str) : List Str :=
  let cleaned := raw_keypoints.foldl
    (fun acc kp0 =>
      let kp := normalize_keypoint_clean kp0
      if kp = [] ∨ is_incomplete_sentence kp then acc
      else if acc.contains kp then acc
      else acc ++ [kp])
    []
  let cleaned := if cleaned.length < 5 then kpBackfill cleaned fallback_sentences else cleaned
  cleaned.take 8

/-- `re.findall(r"《[^》]{2,20}》", text)`: the `《…》` titles of
`pipeline._contains_external_reference`, whole matches, scanning
non-overlappingly. -/
def findTitles : Str → List Str
  | [] => []
  | c :: rest =>
    if c = '《' then
      let body := rest.takeWhile (· ≠ '》')
      if (rest.drop body.length).isEmpty then findTitles rest
      else if 2 ≤ body.length ∧ body.length ≤ 20 then
        ('《' :: (body ++ ['》'])) :: findTitles (rest.drop (body.length + 1))
      else findTitles rest
    else findTitles rest
termination_by s => s.length
decreasing_by
  · simp only [List.length_cons]; omega
  · simp only [List.length_cons, List.length_drop]; omega
  · simp only [List.length_cons]; omega
  · simp only [List.length_cons]; omega

/-- `pipeline._contains_external_reference`. -/
def contains_external_reference (text evidence_text : Str) : Bool :=
  (findTitles text).any fun title => !strIn title evidence_text

/-! ## Settings and the validation gate -/

/-- The configuration fields read by the embedded core functions
(`quizcraft/config.py`; defaults as configured there). -/
structure Settings where
  question_types : List Str := ["tf".data, "mcq".data]
  question_count : Nat := 5
  question_retries : Nat := 2
  verify_retries : Nat := 1
  embed_cache_enabled : Bool := true

/-- `pipeline._validate_question`.  The `isinstance` tests of the source
are vacuous on the typed model (`choices` and `step_by_step` are lists by
construction); every other check is verbatim. -/
def validate_question (question : Question) (settings : Settings) : Bool :=
  let q_type := pyLower question.type
  ((settings.question_types.map pyLower).contains q_type) &&
  (decide (question.question ≠ []) && decide (question.answer ≠ []) &&
    decide (question.rationale ≠ [])) &&
  (!is_meta_question question.question) &&
  (decide (question.citations ≠ [])) &&
  (decide (question.evidence_quotes ≠ [])) &&
  (question.evidence_quotes.all fun quote =>
    let text := pyStrip quote.quote
    decide (20 ≤ text.length) && decide (text.length ≤ 80) &&
    decide (7/10 ≤ allowed_char_ratio text) && !is_noisy_line text) &&
  (if q_type = "mcq".data then
    decide (question.choices.length = 4) &&
    !has_banned_mcq_choice question.choices &&
    (question.choices.enum.all fun ic => [choiceLetter ic.1, ' '].isPrefixOf ic.2) &&
    (let correct := pyUpper
      (match question.correct_option with
       | some c => if c ≠ [] then c else question.answer
       | none => question.answer)
     (correct = "A".data ∨ correct = "B".data ∨ correct = "C".data ∨ correct = "D".data) &&
     decide (pyUpper question.answer = correct))
   else true) &&
  (if q_type = "tf".data then
    (question.answer = "true".data ∨ question.answer = "false".data) &&
    !is_question_sentence question.question
   else true) &&
  (if q_type = "short".data then
    !(pyLower question.answer = "true".data ∨ pyLower question.answer = "false".data)
   else true) &&
  (if q_type = "calc".data then
    decide (question.step_by_step ≠ []) && decide (question.final_answer ≠ [])
   else true)

/-! ## Evidence assembly and repair helpers -/

/-- The dict `{chunk["chunk_id"]: chunk for chunk in chunks}`: on duplicate
ids the later entry wins, hence the reversed search. -/
def chunkLookup (chunks : List Chunk) (cid : Str) : Option Chunk :=
  chunks.reverse.find? fun c => decide (c.chunk_id = cid)

/-- `pipeline._ensure_evidence_quotes` (a mutation of `question` in the
source; modelled functionally). -/
def ensure_evidence_quotes (q : Question) (evidence_chunks : List Chunk) : Question :=
  let fromCit := q.citations.findSome? fun citation =>
    match chunkLookup evidence_chunks citation.chunk_id with
    | none => none
    | some chunk =>
      let quote := extract_quote_from_chunk chunk
      if quote = [] then none
      else some (⟨chunk.page, chunk.chunk_id, quote⟩ : EvidenceQuote)
  let quotes :=
    match fromCit with
    | some eq => [eq]
    | none =>
      match evidence_chunks.findSome? (fun chunk =>
        let quote := extract_quote_from_chunk chunk
        if quote = [] then none
        else some (⟨chunk.page, chunk.chunk_id, quote⟩ : EvidenceQuote)) with
      | some eq => [eq]
      | none => []
  { q with evidence_quotes := quotes }

/-- `pipeline._ensure_citations`. -/
def ensure_citations (q : Question) (evidence_chunks : List Chunk) : Question :=
  let chunk_ids := evidence_chunks.map (·.chunk_id)
  let citations := q.citations.filter fun c => chunk_ids.contains c.chunk_id
  let citations :=
    if citations = [] then
      match evidence_chunks with
      | ch :: _ => [(⟨ch.page, ch.chunk_id⟩ : Citation)]
      | [] => citations
    else citations
  { q with citations := citations }

/-- `pipeline._ensure_rationale_quotes`. -/
def ensure_rationale_quotes (q : Question) : Question :=
  if q.evidence_quotes.any (fun quote =>
      decide (quote.quote ≠ []) && strIn quote.quote q.rationale) then q
  else
    match q.evidence_quotes with
    | eq :: _ =>
      { q with rationale := pyStrip (q.rationale ++ "（原文：".data ++ eq.quote ++ "）".data) }
    | [] => q

/-- `pipeline._collect_evidence_by_citations`.  The source receives the
lookup dict; the model receives the chunk list it was built from. -/
def collect_evidence_by_citations (citations : List Citation) (chunks : List Chunk)
    (fallback : List Chunk) : List Chunk :=
  let found := citations.filterMap fun citation =>
    if citation.chunk_id ≠ [] then chunkLookup chunks citation.chunk_id else none
  if found = [] then fallback else found

/-- The id-deduplication at the end of `pipeline._select_evidence_chunks`. -/
def dedupByChunkId (chunks : List Chunk) : List Chunk :=
  (chunks.foldl
    (fun (acc : List Chunk × List Str) chunk =>
      if acc.2.contains chunk.chunk_id then acc
      else (acc.1 ++ [chunk], acc.2 ++ [chunk.chunk_id]))
    ([], [])).1

/-- `pipeline._select_evidence_chunks`. -/
def select_evidence_chunks (msqrt : ℚ → ℚ) (embed : Str → List ℚ) (concept : Concept)
    (chunks : List Chunk) (embeddings : List (List ℚ)) : List Chunk :=
  let fallback := search_index msqrt embed concept.name chunks embeddings 8
  let evidence := collect_evidence_by_citations concept.citations chunks fallback
  let evidence := filter_low_info_chunks evidence
  let evidence := if evidence = [] then filter_low_info_chunks fallback else evidence
  let evidence := if evidence = [] then (filter_low_info_chunks chunks).take 3 else evidence
  (dedupByChunkId evidence).take 6

/-- The repair sequence applied before validation in both the generation
and the verify loops: `_ensure_citations`, `_ensure_evidence_quotes`,
`_ensure_rationale_quotes`. -/
def repairEnsure (q : Question) (evidence_chunks : List Chunk) : Question :=
  ensure_rationale_quotes
    (ensure_evidence_quotes (ensure_citations q evidence_chunks) evidence_chunks)

/-- The question as prepared from one generator reply: normalized, with the
loop's id/type stamped on, quotes cleared (`question["evidence_quotes"] = []`
before the ensure-repairs), and the concept name as default tag. -/
def genPrepared (concept : Concept) (question_id question_type : Str)
    (rawDict : List (Str × PyVal)) : Question :=
  let q1 := normalize_question rawDict question_id
  let q1 := { q1 with id := question_id, type := question_type, evidence_quotes := [] }
  if q1.concept_tags.isEmpty then { q1 with concept_tags := [.vstr concept.name] }
  else q1

/-- The tf-question restatement step (`question["question"] = fixed`). -/
def tfFixed (q : Question) (question_type : Str) : Question :=
  if question_type = "tf".data then
    match fix_tf_question q.question with
    | some fixed => { q with question := fixed }
    | none => q
  else q

/-! ## Question generation (`pipeline.generate_question_for_concept`)

The generator's successive `chat_json` replies are consumed from a stream;
an exception in the source yields `data = {}`, written as `.vdict []` in
the stream.  Prompt construction is external output only and is not
modelled. -/

/-- The body of the `while attempt <= question_retries` loop; `fuel` is the
number of remaining iterations and `q` the `question` variable. -/
def genAttempts (settings : Settings) (concept : Concept) (evidence_chunks : List Chunk)
    (question_id question_type : Str) :
    Nat → Question → List PyVal → Question × List PyVal
  | 0, q, stream => (q, stream)
  | fuel + 1, q, stream =>
    let data := stream.headD (.vdict [])
    let rest := stream.tail
    let insufficient :=
      match data with
      | .vdict kv => truthy ((dget kv "insufficient_evidence".data).getD .vnone)
      | _ => false
    if insufficient then
      genAttempts settings concept evidence_chunks question_id question_type fuel q rest
    else
      let rawDict := match data with | .vdict kv => kv | _ => []
      let q1 := genPrepared concept question_id question_type rawDict
      if question_type = "tf".data ∧ fix_tf_question q1.question = none then
        genAttempts settings concept evidence_chunks question_id question_type fuel q1 rest
      else
        let q2 := tfFixed q1 question_type
        if question_type = "short".data ∧
            (pyLower q2.answer = "true".data ∨ pyLower q2.answer = "false".data) then
          genAttempts settings concept evidence_chunks question_id question_type fuel q2 rest
        else if question_type = "mcq".data ∧ has_banned_mcq_choice q2.choices then
          genAttempts settings concept evidence_chunks question_id question_type fuel q2 rest
        else if is_meta_question q2.question then
          genAttempts settings concept evidence_chunks question_id question_type fuel q2 rest
        else
          let q3 := repairEnsure q2 evidence_chunks
          if validate_question q3 settings then (q3, rest)
          else
            genAttempts settings concept evidence_chunks question_id question_type fuel q3 rest

/-- `pipeline.generate_question_for_concept`: up to
`question_retries + 1` attempts starting from the empty question `{}`. -/
def generate_question_for_concept (settings : Settings) (concept : Concept)
    (evidence_chunks : List Chunk) (question_id question_type : Str)
    (stream : List PyVal) : Question × List PyVal :=
  genAttempts settings concept evidence_chunks question_id question_type
    (settings.question_retries + 1) {} stream

/-! ## The verify/repair loop (`pipeline.verify_questions`) -/

/-- The evidence-chunk assembly at the top of each verify iteration:
cited chunks (low-info filtered), else the search fallback, else the first
three informative chunks. -/
def verifyEvidence (msqrt : ℚ → ℚ) (embed : Str → List ℚ) (current : Question)
    (chunks : List Chunk) (embeddings : List (List ℚ)) : List Chunk :=
  let fallback :=
    filter_low_info_chunks (search_index msqrt embed current.question chunks embeddings 5)
  let evidence_chunks :=
    filter_low_info_chunks (collect_evidence_by_citations current.citations chunks fallback)
  let evidence_chunks := if evidence_chunks = [] then fallback else evidence_chunks
  if evidence_chunks = [] then (filter_low_info_chunks chunks).take 3 else evidence_chunks

/-- The revised question proposed by the verifier, normalized and with
quotes cleared. -/
def reviseProposed (revkv : List (Str × PyVal)) (current_id : Str) : Question :=
  { normalize_question revkv current_id with evidence_quotes := [] }

/-- The body of the `while attempts <= verify_retries` loop of
`verify_questions`, for one question; returns the final `current`. -/
def verifyAttempts (settings : Settings) (msqrt : ℚ → ℚ) (embed : Str → List ℚ)
    (chunks : List Chunk) (embeddings : List (List ℚ)) :
    Nat → Question → List PyVal → Question × List PyVal
  | 0, current, stream => (current, stream)
  | fuel + 1, current, stream =>
    let evidence_chunks := verifyEvidence msqrt embed current chunks embeddings
    let data := stream.headD (.vdict [])
    let rest := stream.tail
    let dataDict := match data with | .vdict kv => kv | _ => []
    let evidence_full_text := List.intercalate ['\n'] (evidence_chunks.map (·.text))
    let quotesOk := current.evidence_quotes.all fun quote =>
      match chunkLookup chunks quote.chunk_id with
      | some chunk => strIn quote.quote chunk.text
      | none => false
    let supported :=
      truthy ((dget dataDict "supported".data).getD .vnone) &&
      decide (current.citations ≠ []) &&
      !is_meta_question current.question &&
      !(decide (current.type = "tf".data) && is_question_sentence current.question) &&
      !(decide (current.type = "short".data) &&
        (pyLower current.answer = "true".data ∨ pyLower current.answer = "false".data)) &&
      !(decide (current.type = "mcq".data) && has_banned_mcq_choice current.choices) &&
      !contains_external_reference
        (current.question ++ ' ' :: current.answer ++ ' ' :: current.rationale)
        evidence_full_text &&
      quotesOk
    if supported then (current, rest)
    else
      match dget dataDict "revised_question".data with
      | some (.vdict revkv) =>
        let cur1 := reviseProposed revkv current.id
        if cur1.type = "tf".data ∧ fix_tf_question cur1.question = none then
          verifyAttempts settings msqrt embed chunks embeddings fuel cur1 rest
        else
          let cur2 := tfFixed cur1 cur1.type
          if cur2.type = "short".data ∧
              (pyLower cur2.answer = "true".data ∨ pyLower cur2.answer = "false".data) then
            verifyAttempts settings msqrt embed chunks embeddings fuel cur2 rest
          else if cur2.type = "mcq".data ∧ has_banned_mcq_choice cur2.choices then
            verifyAttempts settings msqrt embed chunks embeddings fuel cur2 rest
          else
            let cur3 := repairEnsure cur2 evidence_chunks
            if validate_question cur3 settings then (cur3, rest)
            else verifyAttempts settings msqrt embed chunks embeddings fuel cur3 rest
      | _ => verifyAttempts settings msqrt embed chunks embeddings fuel current rest

/-- The post-loop repair of `verify_questions` for one question
(`verifyRegen`): optional regeneration from the concept behind the
question when the loop result fails the gate.

`current.get("concept_tags", [""])[0]` is modelled by the head of
`concept_tags` with default `""`: the default covers the absent-field case
(the source's `[""]`); a present-but-empty list would raise `IndexError`
in the source — no question built by this pipeline carries a
present-but-empty tag list, and on such inputs the model simply continues
with `""`, which can only let the model emit more than the source does
(the theorems below about emitted questions are then the stronger
statements).  `current.get("type", settings.question_types[0])` is
likewise modelled through the empty string standing for the absent
field. -/
def verifyRegen (settings : Settings) (msqrt : ℚ → ℚ) (embed : Str → List ℚ)
    (chunks : List Chunk) (embeddings : List (List ℚ))
    (concept_lookup : Str → Option Concept) (r1 : Question × List PyVal) :
    Question × List PyVal :=
  if validate_question r1.1 settings then r1
  else
    let concept_name := match r1.1.concept_tags with
      | [] => PyVal.vstr []
      | t :: _ => t
    match concept_name with
    | .vstr nm =>
      match concept_lookup nm with
      | some concept =>
        let evidence := select_evidence_chunks msqrt embed concept chunks embeddings
        let qtype :=
          if r1.1.type = [] then (settings.question_types.headD []) else r1.1.type
        let rg := generate_question_for_concept settings concept evidence r1.1.id qtype r1.2
        if validate_question rg.1 settings then rg else (r1.1, rg.2)
      | none => r1
    | _ => r1

/-- The final gate of `verify_questions` for one question: `none` when the
question is dropped. -/
def verifyOne (settings : Settings) (msqrt : ℚ → ℚ) (embed : Str → List ℚ)
    (chunks : List Chunk) (embeddings : List (List ℚ))
    (concept_lookup : Str → Option Concept) (question : Question)
    (stream : List PyVal) : Option Question × List PyVal :=
  let r1 := verifyAttempts settings msqrt embed chunks embeddings
    (settings.verify_retries + 1) question stream
  let r2 := verifyRegen settings msqrt embed chunks embeddings concept_lookup r1
  if validate_question r2.1 settings then (some r2.1, r2.2) else (none, r2.2)

/-- `pipeline.verify_questions`. -/
def verify_questions (settings : Settings) (msqrt : ℚ → ℚ) (embed : Str → List ℚ)
    (questions : List Question) (chunks : List Chunk) (embeddings : List (List ℚ))
    (concept_lookup : Str → Option Concept) (stream : List PyVal) :
    List Question × List PyVal :=
  questions.foldl
    (fun acc q =>
      let r := verifyOne settings msqrt embed chunks embeddings concept_lookup q acc.2
      (match r.1 with
       | some v => acc.1 ++ [v]
       | none => acc.1, r.2))
    ([], stream)

/-! ## Concept extraction (`pipeline.extract_concepts`) -/

/-- The `add_concept` closure of `pipeline._fallback_concepts_from_mini`;
the state is `(concepts, used)`. -/
def fcAdd (st : List Concept × List Str) (name description : Str)
    (citations : List Citation) : List Concept × List Str :=
  if name = [] ∨ st.2.contains name then st
  else (st.1 ++ [⟨name, description, citations, "medium".data⟩], st.2 ++ [name])

/-- Phase (a) of the fallback: keypoints as concept names.  The boolean
result records the early `return` on reaching the target count. -/
def fcKeypoints (count : Nat) (fc : List Citation) :
    List Concept × List Str → List Str → (List Concept × List Str) × Bool
  | st, [] => (st, false)
  | st, kp :: rest =>
    let st' := fcAdd st kp [] fc
    if count ≤ st'.1.length then (st', true) else fcKeypoints count fc st' rest

/-- The keyword loop of phase (b). -/
def fcKeywords (count : Nat) (description : Str) (citations : List Citation) :
    List Concept × List Str → List Str → (List Concept × List Str) × Bool
  | st, [] => (st, false)
  | st, kw :: rest =>
    let st' := fcAdd st kw description citations
    if count ≤ st'.1.length then (st', true) else fcKeywords count description citations st' rest

/-- Phase (b) of the fallback: keywords, then a snippet-derived name, per
mini-summary. -/
def fcMinis (count : Nat) :
    List Concept × List Str → List MiniSummary → List Concept × List Str
  | st, [] => st
  | st, ms :: rest =>
    let citations := ms.citations
    let r := fcKeywords count (ms.mini_summary.take 50) (citations.take 1) st ms.keywords
    if r.2 then r.1
    else
      let snippet := pyStrip ms.mini_summary
      if snippet ≠ [] then
        let name := ((snippet.take 20).reverse.dropWhile (charIn ['，', '。', '；'])).reverse
          ++ "...".data
        let st' := fcAdd r.1 name snippet (citations.take 1)
        if count ≤ st'.1.length then st' else fcMinis count st' rest
      else fcMinis count r.1 rest

/-- `pipeline._fallback_concepts_from_mini`. -/
def fallback_concepts_from_mini (keypoints : List Str) (minis : List MiniSummary)
    (settings : Settings) : List Concept :=
  let first_citation := minis.findSome? fun ms => ms.citations.head?
  let fc := match first_citation with
    | some c => [c]
    | none => []
  let r := fcKeypoints settings.question_count fc ([], []) keypoints
  if r.2 then r.1.1
  else (fcMinis settings.question_count r.1 minis).1

/-- The dedupe-against-`used` top-up loop at the end of
`pipeline.extract_concepts`. -/
def conceptsTopUp (count : Nat) :
    List Concept → List Str → List Concept → List Concept
  | concepts, _, [] => concepts
  | concepts, used, c :: rest =>
    if used.contains c.name then conceptsTopUp count concepts used rest
    else
      let cs := concepts ++ [c]
      if count ≤ cs.length then cs
      else conceptsTopUp count cs (used ++ [c.name]) rest

/-- The generator-provided concept list of `pipeline.extract_concepts`:
`normalize_concepts(data.get("concepts"))[: settings.question_count]`. -/
def concepts_from_reply (settings : Settings) (data : PyVal) : List Concept :=
  let dataDict := match data with | .vdict kv => kv | _ => []
  (normalize_concepts (dget dataDict "concepts".data)).take settings.question_count

/-- `pipeline.extract_concepts`.  `data` is the single `chat_json` reply
(`{}` when the call raised). -/
def extract_concepts (settings : Settings) (keypoints : List Str)
    (minis : List MiniSummary) (data : PyVal) : List Concept :=
  let concepts := concepts_from_reply settings data
  if concepts.length < settings.question_count then
    let fallback := fallback_concepts_from_mini keypoints minis settings
    conceptsTopUp settings.question_count concepts (concepts.map (·.name)) fallback
  else concepts

/-! ## The embedding cache (`pipeline._load_embeddings`,
`pipeline._build_or_load_embeddings`) -/

/-- The embedding-cache file as `_load_embeddings` sees it after
`json.load`: each field holds the parsed value when it is of the expected
shape.  A `chunk_ids` value that is not a list of strings can never equal
the current id list and a non-list `embeddings` value fails the
`isinstance` test, so both behave exactly like an absent field and are
modelled as `none`. -/
structure CacheData where
  chunk_ids : Option (List Str)
  embeddings : Option (List (List ℚ))

/-- `pipeline._load_embeddings`.  The whole file is `none` when the path
does not exist or its bytes fail `json.load` (both return `None` in the
source). -/
def load_embeddings (file : Option CacheData) (chunks : List Chunk) :
    Option (List (List ℚ)) :=
  match file with
  | none => none
  | some data =>
    if data.chunk_ids ≠ some (chunks.map (·.chunk_id)) then none
    else
      match data.embeddings with
      | some embeddings =>
        if embeddings.length = chunks.length then some embeddings else none
      | none => none

/-- `pipeline._build_or_load_embeddings`.  The cache write after a miss
does not affect the returned value and is omitted; `if cached:` is a
truthiness test, so an empty cached list also falls through to a
rebuild. -/
def build_or_load_embeddings (file : Option CacheData) (chunks : List Chunk)
    (embed : Str → List ℚ) (cache_enabled : Bool) : List (List ℚ) :=
  if cache_enabled then
    match load_embeddings file chunks with
    | some cached => if cached.isEmpty then build_index chunks embed else cached
    | none => build_index chunks embed
  else build_index chunks embed

/-! ## Summary fallback synthesis (`pipeline._build_summary_block_from_mini`)
and its validation gate -/

/-- The first, page-deduplicating collection loop of
`pipeline._citations_for_text` (break at `max_count = 4`). -/
def citPhase1 : List Chunk → List Citation → List Int → List Citation
  | [], cits, _ => cits
  | ch :: rest, cits, seen =>
    if seen.contains ch.page then citPhase1 rest cits seen
    else
      let cits' := cits ++ [(⟨ch.page, ch.chunk_id⟩ : Citation)]
      if 4 ≤ cits'.length then cits'
      else citPhase1 rest cits' (seen ++ [ch.page])

/-- The second, padding loop of `pipeline._citations_for_text`
(runs while below `min_count = 2`, skipping exact duplicates). -/
def citPhase2 : List Chunk → List Citation → List Citation
  | [], cits => cits
  | ch :: rest, cits =>
    if 2 ≤ cits.length then cits
    else
      let citation : Citation := ⟨ch.page, ch.chunk_id⟩
      if cits.contains citation then citPhase2 rest cits
      else citPhase2 rest (cits ++ [citation])

/-- `pipeline._citations_for_text` at its default bounds
(`min_count = 2`, `max_count = 4`; every caller uses the defaults, so
`top_k = max(8, 8) = 8`). -/
def citations_for_text (msqrt : ℚ → ℚ) (embed : Str → List ℚ) (query : Str)
    (chunks : List Chunk) (embeddings : List (List ℚ)) : List Citation :=
  if query = [] then []
  else
    let hits := filter_low_info_chunks (search_index msqrt embed query chunks embeddings 8)
    let citations := citPhase1 hits [] []
    let citations := if citations.length < 2 then citPhase2 hits citations else citations
    citations.take 4

/-- The distinct pages of a chunk set (`{c['page'] for c in ...}`),
as a deduplicated list (only its cardinality and membership are used). -/
def distinctPages (chunks : List Chunk) : List Int :=
  (chunks.map (·.page)).dedup

/-- Successive slices of size `bs1 + 1`
(`range(0, len(pages), bucket_size)`). -/
def chunkSlices (bs1 : Nat) : List Int → List (List Int)
  | [] => []
  | p :: rest => (p :: rest).take (bs1 + 1) :: chunkSlices bs1 (rest.drop bs1)
termination_by ps => ps.length
decreasing_by simp only [List.length_cons, List.length_drop]; omega

/-- `pipeline._build_section_groups`. -/
def build_section_groups (selected_chunks : List Chunk) (target_sections : Nat) :
    List (Str × List Chunk) :=
  let pages := (distinctPages selected_chunks).mergeSort fun a b => decide (a ≤ b)
  if pages.isEmpty then []
  else
    let bucket_size := max 1 ((pages.length + target_sections - 1) / target_sections)
    (chunkSlices (bucket_size - 1) pages).filterMap fun bucket_pages =>
      let bucket_chunks := selected_chunks.filter fun c =>
        bucket_pages.contains c.page && !is_low_info_chunk c
      match bucket_chunks with
      | [] => none
      | bc0 :: _ =>
        let title :=
          if bc0.section_title ≠ [] then bc0.section_title
          else "第".data ++ (toString (bucket_pages.headD 0)).data ++ "-".data ++
               (toString (bucket_pages.getLastD 0)).data ++ "頁重點".data
        some (title, bucket_chunks)

/-- `pipeline._ensure_section_coverage` (the in-place citation injection is
modelled with `List.set`; `idx % len(sections)` is well-defined because the
function returns early when `sections` is empty). -/
def ensure_section_coverage (sections : List SummarySection)
    (selected_chunks : List Chunk) : List SummarySection :=
  if sections = [] then sections
  else
    let pages_all := (distinctPages selected_chunks).mergeSort fun a b => decide (a ≤ b)
    if pages_all = [] then sections
    else
      let required := max 1 ((pages_all.length * 3) / 5)
      let covered := ((sections.flatMap (·.citations)).map (·.page)).dedup
      if required ≤ covered.length then sections
      else
        let missing_pages := pages_all.filter fun p => !covered.contains p
        missing_pages.enum.foldl
          (fun secs ip =>
            match selected_chunks.find? (fun c =>
                decide (c.page = ip.2) && !is_low_info_chunk c) with
            | none => secs
            | some chunk =>
              let j := ip.1 % secs.length
              match secs.get? j with
              | none => secs
              | some sec =>
                if (sec.citations.map (·.page)).contains ip.2 then secs
                else if 4 ≤ sec.citations.length then secs
                else secs.set j
                  { sec with citations :=
                      sec.citations ++ [(⟨chunk.page, chunk.chunk_id⟩ : Citation)] })
          sections

/-- `pipeline._validate_summary_block`. -/
def validate_summary_block (summary : SummaryBlock)
    (min_unique_pages min_citations : Nat) : Bool :=
  decide (2 ≤ (split_sentences summary.overview).length) &&
  decide (3 ≤ summary.sections.length) &&
  decide (5 ≤ summary.keypoints.length) &&
  summary.sections.all fun sec =>
    decide (2 ≤ (split_sentences sec.summary).length) &&
    decide (min_citations ≤ sec.citations.length) &&
    decide (min_unique_pages ≤ ((sec.citations.map (·.page)).dedup).length)

/-- The dict `{ms["chunk_id"]: ms for ms in mini_summaries}` (later entries
win). -/
def miniByChunkId (minis : List MiniSummary) (cid : Str) : Option MiniSummary :=
  minis.reverse.find? fun ms => decide (ms.chunk_id = cid)

/-- The per-group section synthesis loop of
`pipeline._build_summary_block_from_mini` (break at `target_sections`). -/
def bsSections (msqrt : ℚ → ℚ) (embed : Str → List ℚ) (minis : List MiniSummary)
    (chunks : List Chunk) (embeddings : List (List ℚ)) (target : Nat) :
    List (Str × List Chunk) → List SummarySection → List SummarySection
  | [], secs => secs
  | (title, group) :: rest, secs =>
    let group_sentences := group.flatMap fun chunk =>
      match miniByChunkId minis chunk.chunk_id with
      | some ms => split_sentences ms.mini_summary
      | none => []
    let summary := normalize_paragraph [] 2 4 group_sentences
    let citations := citations_for_text msqrt embed (title ++ ' ' :: summary) chunks embeddings
    let secs' := secs ++ [(⟨title, summary, citations⟩ : SummarySection)]
    if target ≤ secs'.length then secs'
    else bsSections msqrt embed minis chunks embeddings target rest secs'

/-- `target_sections = min(6, max(3, (pages + 4) // 5))` and the relaxed
citation floors, as computed in both `reduce_summarize` and
`_build_summary_block_from_mini`. -/
def targetSections (selected_chunks : List Chunk) : Nat :=
  min 6 (max 3 (((distinctPages selected_chunks).length + 4) / 5))

def minUniquePages (selected_chunks : List Chunk) : Nat :=
  if 2 ≤ (distinctPages selected_chunks).length then 2 else 1

def minCitations (selected_chunks : List Chunk) : Nat :=
  if 2 ≤ (distinctPages selected_chunks).length then 2 else 1

/-- `pipeline._build_summary_block_from_mini` — the deterministic fallback
synthesizer of the reduce summarizer. -/
def build_summary_block_from_mini (msqrt : ℚ → ℚ) (embed : Str → List ℚ)
    (minis : List MiniSummary) (selected_chunks chunks : List Chunk)
    (embeddings : List (List ℚ)) : SummaryBlock :=
  let fallback_sentences := sentences_from_mini_summaries minis
  let overview := normalize_paragraph [] 2 3 fallback_sentences
  let target := targetSections selected_chunks
  let groups := build_section_groups selected_chunks target
  let sections := bsSections msqrt embed minis chunks embeddings target groups []
  let sections := ensure_section_coverage sections selected_chunks
  let keypoints := normalize_keypoints [] fallback_sentences
  ⟨overview, sections, keypoints⟩

/-! ## Specification-side definitions (for refinement claims) -/

/-- Modelled from the spec: "ranked by cosine similarity, descending, ties
broken by input order" — the comparator on index-tagged scored chunks that
puts `a` before `b` iff `a`'s score is strictly higher, or the scores are
equal and `a` came first in the input. -/
def rank_le (a b : Nat × (ℚ × Chunk)) : Bool :=
  decide (b.2.1 < a.2.1 ∨ (a.2.1 = b.2.1 ∧ a.1 ≤ b.1))

/-- Modelled from the spec: the full ranking of the scored chunks — every
`(cosine, chunk)` pair tagged with its input position, sorted by
`rank_le`. -/
def search_ranked_idx (msqrt : ℚ → ℚ) (embed : Str → List ℚ) (query : Str)
    (chunks : List Chunk) (embeddings : List (List ℚ)) : List (Nat × (ℚ × Chunk)) :=
  ((search_scored msqrt (embed query) chunks embeddings).enum).mergeSort rank_le

/-- The cleaned body text of a chunk: its whitespace-normalized,
noise-filtered lines joined by single spaces — exactly the text
`_extract_quote_from_chunk` draws from. -/
def chunk_body_text (chunk : Chunk) : Str :=
  List.intercalate [' '] (chunk_body_lines chunk)

/-- A question's evidence quotes are grounded in the *cleaned bodies* of the
chunks they cite: every quote is a contiguous substring of the cleaned
body text of each chunk carrying its `chunk_id`. -/
def quotes_ground_in_bodies (chunks : List Chunk) (q : Question) : Prop :=
  ∀ eq ∈ q.evidence_quotes, ∀ c ∈ chunks, c.chunk_id = eq.chunk_id →
    eq.quote <:+: chunk_body_text c

/-- Every citation of the question refers to a chunk id of the known chunk
set. -/
def citations_known (chunks : List Chunk) (q : Question) : Prop :=
  ∀ cit ∈ q.citations, cit.chunk_id ∈ chunks.map (·.chunk_id)

/-- The `correct_option`/`answer` discipline `normalize_question` imposes on
mcq questions: a present option is a single letter `A`–`D` equal to the
answer, and an absent option together with a full 4-choice list forces the
answer not to be a bare option letter (so such a question cannot pass the
validation gate). -/
def mcq_option_discipline (q : Question) : Prop :=
  (∀ c, q.correct_option = some c →
    (c = "A".data ∨ c = "B".data ∨ c = "C".data ∨ c = "D".data) ∧ q.answer = c) ∧
  (q.correct_option = none → q.choices.length = 4 →
    ¬(pyUpper q.answer = "A".data ∨ pyUpper q.answer = "B".data ∨
      pyUpper q.answer = "C".data ∨ pyUpper q.answer = "D".data))

/-- The invariant every gate-passing question produced by the generation
stage (`generate_question_for_concept`) satisfies, and which the
verify/repair loop maintains: quotes grounded in chunk bodies, citations
restricted to known chunk ids, and the mcq option discipline. -/
def generator_invariant (chunks : List Chunk) (q : Question) : Prop :=
  quotes_ground_in_bodies chunks q ∧
  citations_known chunks q ∧
  mcq_option_discipline q

/-- A question is gate-sound when passing the validation gate implies the
generator invariant.  Every output of `generate_question_for_concept` is
gate-sound (`generate_question_invariant` below): its fuel-exhausted
returns carry `evidence_quotes = []` and thus fail the gate, and its
gate-checked returns went through the ensure-repairs. -/
def gate_invariant (settings : Settings) (chunks : List Chunk) (q : Question) : Prop :=
  validate_question q settings = true → generator_invariant chunks q

/-- A chunk whose raw text carries a double space: its normalized body (and
hence every quote extracted from it) collapses the run, so the quote is not
a substring of the raw text. -/
def cxChunk : Chunk :=
  { chunk_id := "p1_c1".data
    page := 1
    section_title := []
    text := "The quick brown  fox jumps over the lazy dog this day.".data }

/-- A well-formed tf question citing `cxChunk`, carrying the quote the
pipeline itself would attach (`_extract_quote_from_chunk`). -/
def cxQuestion : Question :=
  { id := "q1".data
    type := "tf".data
    question := "The fox jumps over the lazy dog.".data
    answer := "true".data
    rationale := "The passage says the fox jumps over the lazy dog.".data
    citations := [⟨1, "p1_c1".data⟩]
    evidence_quotes := [⟨1, "p1_c1".data, extract_quote_from_chunk cxChunk⟩] }

/-! # Theorems -/

attribute [local semireducible] Rat.add Rat.mul Rat.sub Rat.inv List.merge
attribute [local semireducible] List.mergeSort pyStrOf pyReprOf pyReprItems pyReprPairs
attribute [local semireducible] removeCitationTags removeTfPhrases removeEmptyParens
attribute [local semireducible] findTitles chunkSlices

/-- **C9.** For every pair of vectors, `_cosine_similarity` is total (it is
a Lean function) and never divides by zero: whenever either vector is
empty, the lengths differ, or either vector has zero norm (the source's
`norm_a == 0.0` test, i.e. `msqrt (sum_sq ·) = 0`), it returns `0.0`; and
in the remaining case its divisor is a product of two non-zero norms. -/
theorem cosine_similarity_total_safe (msqrt : ℚ → ℚ) (a b : List ℚ) :
    ((a = [] ∨ b = [] ∨ a.length ≠ b.length ∨
        msqrt (sum_sq a) = 0 ∨ msqrt (sum_sq b) = 0) →
      cosine_similarity msqrt a b = 0) ∧
    (msqrt (sum_sq a) ≠ 0 → msqrt (sum_sq b) ≠ 0 →
      msqrt (sum_sq a) * msqrt (sum_sq b) ≠ 0 ∧
      cosine_similarity msqrt a b =
        dot_product a b / (msqrt (sum_sq a) * msqrt (sum_sq b)) ∨
      cosine_similarity msqrt a b = 0) := by
  constructor
  · intro h
    by_cases h1 : a = [] ∨ b = [] ∨ a.length ≠ b.length
    · simp only [cosine_similarity, if_pos h1]
    · have h2 : msqrt (sum_sq a) = 0 ∨ msqrt (sum_sq b) = 0 := by tauto
      simp only [cosine_similarity, if_neg h1, if_pos h2]
  · intro ha hb
    by_cases h1 : a = [] ∨ b = [] ∨ a.length ≠ b.length
    · right; simp only [cosine_similarity, if_pos h1]
    · left
      refine ⟨mul_ne_zero ha hb, ?_⟩
      have h2 : ¬(msqrt (sum_sq a) = 0 ∨ msqrt (sum_sq b) = 0) := by tauto
      simp only [cosine_similarity, if_neg h1, if_neg h2]

/-- Witness for **C9** at concrete inputs: the zero vector `[0]` against
`[1]` hits the zero-norm guard, and `[1]` against `[1]` takes the division
branch with a non-zero divisor (with `msqrt` instantiated by a function
that is zero exactly at zero). -/
theorem cosine_similarity_total_safe_witness :
    cosine_similarity id [(0 : ℚ)] [(1 : ℚ)] = 0 ∧
    (id (sum_sq [(1 : ℚ)]) * id (sum_sq [(1 : ℚ)]) ≠ 0 ∧
      cosine_similarity id [(1 : ℚ)] [(1 : ℚ)] =
        dot_product [(1 : ℚ)] [(1 : ℚ)] /
          (id (sum_sq [(1 : ℚ)]) * id (sum_sq [(1 : ℚ)])) ∨
      cosine_similarity id [(1 : ℚ)] [(1 : ℚ)] = 0) := by
  constructor
  · exact (cosine_similarity_total_safe id [0] [1]).1 (by right; right; right; left; decide)
  · exact (cosine_similarity_total_safe id [1] [1]).2 (by decide) (by decide)

/-- **C7.** An absent or unreadable cache file, or one whose stored
`chunk_ids` differ from the current chunk-id sequence (in particular in
length or order), is a cache miss: `_load_embeddings` returns `None`
rather than raising, and `_build_or_load_embeddings` recomputes the
embeddings from the chunks. -/
theorem cache_mismatch_is_miss (file : Option CacheData) (chunks : List Chunk)
    (embed : Str → List ℚ)
    (h : file = none ∨ ∃ d, file = some d ∧ d.chunk_ids ≠ some (chunks.map (·.chunk_id))) :
    load_embeddings file chunks = none ∧
    build_or_load_embeddings file chunks embed true = build_index chunks embed := by
  have hload : load_embeddings file chunks = none := by
    rcases h with rfl | ⟨d, rfl, hd⟩
    · rfl
    · simp only [load_embeddings, if_pos hd]
  exact ⟨hload, by simp [build_or_load_embeddings, hload]⟩

/-- Witness for **C7**: a cached file whose `chunk_ids` list has a
different length than the current one-chunk sequence is rejected and the
embeddings are rebuilt. -/
theorem cache_mismatch_is_miss_witness :
    load_embeddings
        (some ⟨some [], some [[(1 : ℚ)]]⟩)
        [⟨"p1_c1".data, 1, [], "t".data⟩] = none ∧
    build_or_load_embeddings
        (some ⟨some [], some [[(1 : ℚ)]]⟩)
        [⟨"p1_c1".data, 1, [], "t".data⟩] (fun _ => [1]) true =
      build_index [⟨"p1_c1".data, 1, [], "t".data⟩] (fun _ => [1]) := by
  exact cache_mismatch_is_miss _ _ _ (Or.inr ⟨_, rfl, by decide⟩)

/-- The top-up loop of `extract_concepts` appends a block of concepts whose
names are pairwise distinct and disjoint from the `used` set. -/
theorem conceptsTopUp_append (count : Nat) (fallback : List Concept) :
    ∀ (concepts : List Concept) (used : List Str),
      ∃ added, conceptsTopUp count concepts used fallback = concepts ++ added ∧
        (added.map (·.name)).Nodup ∧ ∀ c ∈ added, c.name ∉ used := by
  induction fallback with
  | nil =>
    intro concepts used
    exact ⟨[], by simp [conceptsTopUp], by simp, by simp⟩
  | cons c rest ih =>
    intro concepts used
    by_cases hc : used.contains c.name
    · obtain ⟨added, h1, h2, h3⟩ := ih concepts used
      exact ⟨added, by simp only [conceptsTopUp, if_pos hc]; exact h1, h2, h3⟩
    · have hcmem : c.name ∉ used := by simpa using hc
      by_cases hlen : count ≤ (concepts ++ [c]).length
      · refine ⟨[c], ?_, by simp, ?_⟩
        · rw [conceptsTopUp, if_neg hc, if_pos hlen]
        · intro x hx
          simp only [List.mem_singleton] at hx
          subst hx; exact hcmem
      · obtain ⟨added, h1, h2, h3⟩ := ih (concepts ++ [c]) (used ++ [c.name])
        refine ⟨c :: added, ?_, ?_, ?_⟩
        · rw [conceptsTopUp, if_neg hc, if_neg hlen, h1]
          simp
        · simp only [List.map_cons, List.nodup_cons, h2, and_true]
          intro hmem
          obtain ⟨x, hx, hxn⟩ := List.mem_map.mp hmem
          have := h3 x hx
          simp [hxn] at this
        · intro x hx
          rcases List.mem_cons.mp hx with rfl | hx
          · exact hcmem
          · have := h3 x hx
            intro hmem; exact this (List.mem_append_left _ hmem)

/-- The top-up loop never grows the list beyond the requested count
(it is entered with fewer concepts than the target). -/
theorem conceptsTopUp_length (count : Nat) (fallback : List Concept) :
    ∀ (concepts : List Concept) (used : List Str), concepts.length < count →
      (conceptsTopUp count concepts used fallback).length ≤ count := by
  induction fallback with
  | nil =>
    intro concepts used h
    simpa [conceptsTopUp] using Nat.le_of_lt h
  | cons c rest ih =>
    intro concepts used h
    by_cases hc : used.contains c.name
    · simpa only [conceptsTopUp, if_pos hc] using ih concepts used h
    · by_cases hlen : count ≤ (concepts ++ [c]).length
      · rw [conceptsTopUp, if_neg hc, if_pos hlen]
        simp only [List.length_append, List.length_cons, List.length_nil] at h hlen ⊢
        omega
      · rw [conceptsTopUp, if_neg hc, if_neg hlen]
        exact ih _ _ (by simp at hlen ⊢; omega)

/-- **C5 (amended).** `extract_concepts` returns at most `question_count`
concepts; the concepts appended by the deterministic fallback top-up have
names pairwise distinct and distinct from every generator-provided
concept's name; the generator-provided (truncated) list itself is *not*
deduplicated by name (see `extract_concepts_keeps_duplicate_names`). -/
theorem extract_concepts_bounded_topup (settings : Settings) (keypoints : List Str)
    (minis : List MiniSummary) (data : PyVal) :
    (extract_concepts settings keypoints minis data).length ≤ settings.question_count ∧
    ∃ added, extract_concepts settings keypoints minis data =
        concepts_from_reply settings data ++ added ∧
      (added.map (·.name)).Nodup ∧
      ∀ c ∈ added, c.name ∉ (concepts_from_reply settings data).map (·.name) := by
  by_cases h : (concepts_from_reply settings data).length < settings.question_count
  · constructor
    · simp only [extract_concepts, if_pos h]
      exact conceptsTopUp_length _ _ _ _ h
    · obtain ⟨added, h1, h2, h3⟩ := conceptsTopUp_append settings.question_count
        (fallback_concepts_from_mini keypoints minis settings)
        (concepts_from_reply settings data)
        ((concepts_from_reply settings data).map (·.name))
      exact ⟨added, by simp only [extract_concepts, if_pos h]; exact h1, h2, h3⟩
  · refine ⟨?_, [], by simp [extract_concepts, h], by simp, by simp⟩
    simp only [extract_concepts, if_neg h]
    simp only [concepts_from_reply]
    exact le_trans (List.length_take_le _ _) le_rfl

/-- **C5 (counterexample).** When the generator returns two concepts with
the same name, `extract_concepts` keeps both: `normalize_concepts` does
not deduplicate and the name-dedup applies only against the fallback
top-up, so the claim "at most one Concept per distinct name" is false. -/
theorem extract_concepts_keeps_duplicate_names :
    ((extract_concepts { question_count := 2 } [] []
        (.vdict [("concepts".data,
          .vlist [.vdict [("name".data, .vstr "X".data)],
                  .vdict [("name".data, .vstr "X".data)]])])).map (·.name)
      = ["X".data, "X".data]) ∧
    ¬ ((extract_concepts { question_count := 2 } [] []
        (.vdict [("concepts".data,
          .vlist [.vdict [("name".data, .vstr "X".data)],
                  .vdict [("name".data, .vstr "X".data)]])])).Pairwise
        (fun a b => a.name ≠ b.name)) := by
  constructor
  · decide
  · decide

/-- The type assigned by `normalize_question`: the lower-cased raw `type`
when recognized, else `"tf"`. -/
theorem normalize_question_type_eq (raw : List (Str × PyVal)) (fid : Str) :
    (normalize_question raw fid).type =
      (if pyLower (pyStrOf ((dget raw "type".data).getD (.vstr "tf".data))) = "tf".data ∨
          pyLower (pyStrOf ((dget raw "type".data).getD (.vstr "tf".data))) = "mcq".data ∨
          pyLower (pyStrOf ((dget raw "type".data).getD (.vstr "tf".data))) = "short".data ∨
          pyLower (pyStrOf ((dget raw "type".data).getD (.vstr "tf".data))) = "calc".data
       then pyLower (pyStrOf ((dget raw "type".data).getD (.vstr "tf".data)))
       else "tf".data) := by
  simp only [normalize_question, normalize_q_type]
  split_ifs <;> rfl

/-- **C10.** `normalize_question` is total over arbitrary dict input (it is
a Lean function, and every field access in the source is a defaulted
`get`): the returned question's type is always one of `tf`, `mcq`,
`short`, `calc`; an unrecognized or missing `type` defaults to `"tf"`;
and for `tf` questions the affirmative/negative answer variants
(`t`, `true`, `yes`, `y`, `對`, `正确`, `正確`, resp. `f`, `false`, `no`,
`n`, `錯`, `错误`, `錯誤`) are canonicalized to exactly `"true"` resp.
`"false"`. -/
theorem normalize_question_total (raw : List (Str × PyVal)) (fallback_id : Str) :
    ((normalize_question raw fallback_id).type = "tf".data ∨
     (normalize_question raw fallback_id).type = "mcq".data ∨
     (normalize_question raw fallback_id).type = "short".data ∨
     (normalize_question raw fallback_id).type = "calc".data) ∧
    (∀ v, dget raw "type".data = some v →
      pyLower (pyStrOf v) ≠ "tf".data → pyLower (pyStrOf v) ≠ "mcq".data →
      pyLower (pyStrOf v) ≠ "short".data → pyLower (pyStrOf v) ≠ "calc".data →
      (normalize_question raw fallback_id).type = "tf".data) ∧
    (dget raw "type".data = none → (normalize_question raw fallback_id).type = "tf".data) ∧
    ((normalize_question raw fallback_id).type = "tf".data →
      (tfTrueSet.contains
          (pyLower (pyStrip (pyStrOf ((dget raw "answer".data).getD (.vstr []))))) →
        (normalize_question raw fallback_id).answer = "true".data) ∧
      (tfFalseSet.contains
          (pyLower (pyStrip (pyStrOf ((dget raw "answer".data).getD (.vstr []))))) →
        (normalize_question raw fallback_id).answer = "false".data)) := by
  refine ⟨?_, ?_, ?_, ?_⟩
  · rw [normalize_question_type_eq]
    split_ifs with h
    · tauto
    · left; rfl
  · intro v hv h1 h2 h3 h4
    rw [normalize_question_type_eq, hv]
    simp only [Option.getD_some]
    rw [if_neg (by tauto)]
  · intro hv
    rw [normalize_question_type_eq, hv]
    simp only [Option.getD_none]
    have : pyLower (pyStrOf (PyVal.vstr "tf".data)) = "tf".data := by decide
    rw [this, if_pos (Or.inl rfl)]
  · intro htf
    rw [normalize_question_type_eq] at htf
    have hq : (if pyLower (pyStrOf ((dget raw "type".data).getD (.vstr "tf".data))) = "tf".data ∨
          pyLower (pyStrOf ((dget raw "type".data).getD (.vstr "tf".data))) = "mcq".data ∨
          pyLower (pyStrOf ((dget raw "type".data).getD (.vstr "tf".data))) = "short".data ∨
          pyLower (pyStrOf ((dget raw "type".data).getD (.vstr "tf".data))) = "calc".data
       then pyLower (pyStrOf ((dget raw "type".data).getD (.vstr "tf".data)))
       else "tf".data) = "tf".data := htf
    constructor
    · intro hT
      replace hT : pyLower (pyStrip (pyStrOf ((dget raw "answer".data).getD (.vstr []))))
          ∈ tfTrueSet := by simpa using hT
      simp [normalize_question, normalize_q_type, hq, hT]
    · intro hF
      have hFm : pyLower (pyStrip (pyStrOf ((dget raw "answer".data).getD (.vstr []))))
          ∈ tfFalseSet := by simpa using hF
      have hNT : pyLower (pyStrip (pyStrOf ((dget raw "answer".data).getD (.vstr []))))
          ∉ tfTrueSet := by
        intro hmem
        simp only [tfFalseSet, List.mem_cons, List.not_mem_nil, or_false] at hFm
        rcases hFm with h | h | h | h | h | h | h
        all_goals (rw [h] at hmem; exact absurd hmem (by decide))
      simp [normalize_question, normalize_q_type, hq, hNT, hFm]

/-- **C8 (amended).** The reduce-summarizer's fallback synthesizer is
deterministic: two calls on the same mini-summary set and selected chunks,
with embedding calls that answer identically, return equal `SummaryBlock`s
— so the validation gate's verdict is the same on both calls.  (The
original claim, that the result *passes* the gate, is false: see
`build_summary_block_can_fail_gate`; the source returns the fallback block
without ever validating it.) -/
theorem build_summary_block_deterministic (msqrt : ℚ → ℚ) (embed1 embed2 : Str → List ℚ)
    (minis : List MiniSummary) (selected_chunks chunks : List Chunk)
    (embeddings : List (List ℚ)) (mu mc : Nat)
    (h : ∀ s, embed1 s = embed2 s) :
    build_summary_block_from_mini msqrt embed1 minis selected_chunks chunks embeddings =
      build_summary_block_from_mini msqrt embed2 minis selected_chunks chunks embeddings ∧
    validate_summary_block
        (build_summary_block_from_mini msqrt embed1 minis selected_chunks chunks embeddings)
        mu mc =
      validate_summary_block
        (build_summary_block_from_mini msqrt embed2 minis selected_chunks chunks embeddings)
        mu mc := by
  have he : embed1 = embed2 := funext h
  subst he
  exact ⟨rfl, rfl⟩

/-- Witness for **C8 (amended)** at a concrete input. -/
theorem build_summary_block_deterministic_witness :
    build_summary_block_from_mini id (fun _ => []) [] [] [] [] =
      build_summary_block_from_mini id (fun _ => []) [] [] [] [] ∧
    validate_summary_block (build_summary_block_from_mini id (fun _ => []) [] [] [] []) 1 1 =
      validate_summary_block (build_summary_block_from_mini id (fun _ => []) [] [] [] []) 1 1 :=
  build_summary_block_deterministic id (fun _ => []) (fun _ => []) [] [] [] [] 1 1
    (fun _ => rfl)

/-- **C8 (counterexample).** The fallback synthesizer's output does not in
general pass the validation gate: on an empty mini-summary set and an
empty selected-chunk set (with the correspondingly relaxed floors) the
block has an empty overview and no sections, and
`_validate_summary_block` rejects it — on both of two identical calls. -/
theorem build_summary_block_can_fail_gate :
    validate_summary_block
        (build_summary_block_from_mini id (fun _ => []) [] [] [] [])
        (minUniquePages []) (minCitations []) = false ∧
    validate_summary_block
        (build_summary_block_from_mini id (fun _ => []) [] [] [] [])
        (minUniquePages []) (minCitations []) = false := by
  constructor <;> decide

/-- The spec-side comparator `rank_le` is exactly the stability
comparator `enumLE` of the code-side descending sort. -/
theorem rank_le_eq_enumLE : rank_le = List.enumLE score_desc := by
  funext a b
  simp only [rank_le, List.enumLE, score_desc]
  by_cases h1 : b.2.1 ≤ a.2.1
  · by_cases h2 : a.2.1 ≤ b.2.1
    · have heq : a.2.1 = b.2.1 := le_antisymm h2 h1
      simp [h1, h2, heq, lt_irrefl]
    · have hlt : b.2.1 < a.2.1 := lt_of_le_not_le h1 h2
      simp [h1, h2, hlt, ne_of_gt hlt]
  · have hlt : a.2.1 < b.2.1 := lt_of_not_le h1
    have hnlt : ¬ b.2.1 < a.2.1 := not_lt_of_gt hlt
    simp [h1, hnlt, ne_of_lt hlt]

/-- `rank_le` is transitive. -/
theorem rank_le_trans (a b c : Nat × (ℚ × Chunk)) :
    rank_le a b → rank_le b c → rank_le a c := by
  simp only [rank_le, decide_eq_true_eq]
  rintro (h1 | ⟨he1, hi1⟩) (h2 | ⟨he2, hi2⟩)
  · exact Or.inl (lt_trans h2 h1)
  · exact Or.inl (he2 ▸ h1)
  · exact Or.inl (he1 ▸ h2)
  · exact Or.inr ⟨he1.trans he2, le_trans hi1 hi2⟩

/-- `rank_le` is total. -/
theorem rank_le_total (a b : Nat × (ℚ × Chunk)) :
    rank_le a b || rank_le b a := by
  simp only [rank_le, Bool.or_eq_true, decide_eq_true_eq]
  rcases lt_trichotomy a.2.1 b.2.1 with h | h | h
  · exact Or.inr (Or.inl h)
  · rcases Nat.le_total a.1 b.1 with hi | hi
    · exact Or.inl (Or.inr ⟨h, hi⟩)
    · exact Or.inr (Or.inr ⟨h.symm, hi⟩)
  · exact Or.inl (Or.inl h)

/-- **C6.** `search_index` returns exactly the first `top_k` entries of the
spec-side ranking: the scored chunks ordered by cosine similarity
descending with ties broken by input order (`search_ranked_idx`, built
with the linear comparator `rank_le`); that ranking is sorted under
`rank_le` and is a permutation of the full scored list.  (Python's
`list.sort` is stable; `List.mergeSort` is the corresponding stable
sort.) -/
theorem search_index_is_ranked (msqrt : ℚ → ℚ) (embed : Str → List ℚ) (query : Str)
    (chunks : List Chunk) (embeddings : List (List ℚ)) (top_k : Nat) :
    search_index msqrt embed query chunks embeddings top_k =
      ((search_ranked_idx msqrt embed query chunks embeddings).take top_k).map (·.2.2) ∧
    (search_ranked_idx msqrt embed query chunks embeddings).Pairwise
      (fun a b => rank_le a b = true) ∧
    (search_ranked_idx msqrt embed query chunks embeddings).Perm
      ((search_scored msqrt (embed query) chunks embeddings).enum) := by
  refine ⟨?_, ?_, ?_⟩
  · have henum := @List.mergeSort_enum _ score_desc
      (search_scored msqrt (embed query) chunks embeddings)
    simp only [search_index, search_ranked_idx, rank_le_eq_enumLE]
    rw [← henum, ← List.map_take, List.map_map]
    rfl
  · simpa [search_ranked_idx] using
      List.sorted_mergeSort rank_le_trans rank_le_total
        ((search_scored msqrt (embed query) chunks embeddings).enum)
  · exact List.mergeSort_perm _ _

/-- Loop invariant of `select_loop`: if `counts` tallies the already
selected chunks per bucket and respects the cap, every bucket's tally in
the final selection stays within the cap. -/
theorem select_loop_bucket_bound (cap top_k : Nat) :
    ∀ (cs : List Chunk) (counts : Str → Nat) (sel rem : List Chunk),
      (∀ b, counts b = (sel.filter (fun c => bucket_key c = b)).length) →
      (∀ b, counts b ≤ cap) →
      ∀ b, (((select_loop cap top_k cs counts sel rem).1.filter
          (fun c => bucket_key c = b)).length) ≤ cap := by
  intro cs
  induction cs with
  | nil =>
    intro counts sel rem hcount hcap b
    simpa [select_loop, ← hcount b] using hcap b
  | cons c rest ih =>
    intro counts sel rem hcount hcap b
    have hcount' : ∀ b', (if b' = bucket_key c then counts (bucket_key c) + 1
        else counts b') = ((sel ++ [c]).filter (fun x => decide (bucket_key x = b'))).length := by
      intro b'
      by_cases hb : b' = bucket_key c
      · subst hb
        simp [List.filter_append, hcount (bucket_key c)]
      · have hcb : ¬ bucket_key c = b' := fun h => hb h.symm
        rw [if_neg hb, hcount b']
        simp [List.filter_append, hcb]
    have hcap' : ∀ b', counts (bucket_key c) < cap →
        (if b' = bucket_key c then counts (bucket_key c) + 1 else counts b') ≤ cap := by
      intro b' hsel
      by_cases hb : b' = bucket_key c
      · rw [if_pos hb]; omega
      · rw [if_neg hb]; exact hcap b'
    simp only [select_loop]
    by_cases hsel : counts (bucket_key c) < cap
    · rw [if_pos hsel]
      by_cases hbreak : top_k ≤ (sel ++ [c]).length
      · rw [if_pos hbreak]
        calc ((List.filter (fun x => decide (bucket_key x = b)) (sel ++ [c])).length)
            = (if b = bucket_key c then counts (bucket_key c) + 1 else counts b) :=
              (hcount' b).symm
          _ ≤ cap := hcap' b hsel
      · rw [if_neg hbreak]
        exact ih _ _ _ (fun b' => hcount' b') (fun b' => hcap' b' hsel) b
    · rw [if_neg hsel]
      by_cases hbreak : top_k ≤ sel.length
      · rw [if_pos hbreak]
        simpa [← hcount b] using hcap b
      · rw [if_neg hbreak]
        exact ih _ _ _ hcount hcap b

/-- **C3.** For every chunk/embedding list, `k ≥ 1` and seed, balanced
`select_chunks` returns at most `k` chunks; its greedy main phase never
takes more than `⌈k / bucket_count⌉` chunks from any one bucket (the
source's cap is `max 1 (k // bucket_count) ≤ ⌈k / bucket_count⌉`); and the
output is exactly the main-phase selection followed by the remainder-fill
needed to reach `k`, truncated to `k`. -/
theorem select_chunks_balanced_quota (msqrt : ℚ → ℚ) (embed : Str → List ℚ)
    (chunks : List Chunk) (embeddings : List (List ℚ)) (k : Nat) (seed : Int)
    (hk : 1 ≤ k) :
    (select_chunks msqrt embed chunks embeddings k seed true).length ≤ k ∧
    (∀ b : Str,
      (((select_main msqrt embed chunks embeddings k).1.filter
          (fun c => bucket_key c = b)).length ≤
        (k + select_bucket_count msqrt embed chunks embeddings - 1) /
          select_bucket_count msqrt embed chunks embeddings)) ∧
    select_chunks msqrt embed chunks embeddings k seed true =
      ((select_main msqrt embed chunks embeddings k).1 ++
        (select_main msqrt embed chunks embeddings k).2.take
          (k - (select_main msqrt embed chunks embeddings k).1.length)).take k := by
  refine ⟨?_, ?_, ?_⟩
  · simp only [select_chunks, Bool.not_true, Bool.false_eq_true, if_false]
    split_ifs <;> exact List.length_take_le _ _
  · intro b
    by_cases hempty : select_sorted msqrt embed chunks embeddings = []
    · simp [select_main, hempty, select_loop]
    · have hbc : 1 ≤ select_bucket_count msqrt embed chunks embeddings := by
        unfold select_bucket_count
        rcases h : select_sorted msqrt embed chunks embeddings with _ | ⟨a, l⟩
        · exact absurd h hempty
        · have hmapne : (a :: l).map bucket_key ≠ [] := by simp
          have hd : ((a :: l).map bucket_key).dedup ≠ [] := by
            simpa [List.dedup_eq_nil] using hmapne
          rcases hx : ((a :: l).map bucket_key).dedup with _ | ⟨x, xs⟩
          · exact absurd hx hd
          · simp
      have hloop := select_loop_bucket_bound
        (select_cap k (select_bucket_count msqrt embed chunks embeddings)) k
        (select_sorted msqrt embed chunks embeddings) (fun _ => 0) [] []
        (fun b' => by simp) (fun b' => Nat.zero_le _) b
      refine le_trans hloop ?_
      have hbc0 : 0 < select_bucket_count msqrt embed chunks embeddings := hbc
      have hmax : max 1 (select_bucket_count msqrt embed chunks embeddings) =
          select_bucket_count msqrt embed chunks embeddings := Nat.max_eq_right hbc
      have h1 : 1 ≤ (k + select_bucket_count msqrt embed chunks embeddings - 1) /
          select_bucket_count msqrt embed chunks embeddings := by
        rw [Nat.one_le_div_iff hbc0]
        omega
      have h2 : k / select_bucket_count msqrt embed chunks embeddings ≤
          (k + select_bucket_count msqrt embed chunks embeddings - 1) /
            select_bucket_count msqrt embed chunks embeddings :=
        Nat.div_le_div_right (by omega)
      simp only [select_cap, hmax]
      exact max_le h1 h2
  · simp only [select_chunks, Bool.not_true, Bool.false_eq_true, if_false]
    by_cases h : (select_main msqrt embed chunks embeddings k).1.length < k
    · rw [if_pos h]
    · rw [if_neg h]
      rw [Nat.sub_eq_zero_of_le (le_of_not_lt h)]
      simp

/-- Witness for **C3** at a concrete input (`k = 1`, empty corpus). -/
theorem select_chunks_balanced_quota_witness :
    (select_chunks id (fun _ => []) [] [] 1 0 true).length ≤ 1 ∧
    (∀ b : Str,
      (((select_main id (fun _ => []) [] [] 1).1.filter
          (fun c => bucket_key c = b)).length ≤
        (1 + select_bucket_count id (fun _ => []) [] [] - 1) /
          select_bucket_count id (fun _ => []) [] [])) ∧
    select_chunks id (fun _ => []) [] [] 1 0 true =
      ((select_main id (fun _ => []) [] [] 1).1 ++
        (select_main id (fun _ => []) [] [] 1).2.take
          (1 - (select_main id (fun _ => []) [] [] 1).1.length)).take 1 :=
  select_chunks_balanced_quota id (fun _ => []) [] [] 1 0 (by decide)

/-! ## Grounding infrastructure for the verify/repair claims -/

theorem reverse_dropWhile_isPre (p : Char → Bool) (t : List Char) :
    (t.reverse.dropWhile p).reverse <+: t := by
  have h : t.reverse.dropWhile p <:+ t.reverse := List.dropWhile_suffix p
  have h2 : (t.reverse.dropWhile p).reverse <+: t.reverse.reverse :=
    List.reverse_prefix.mpr h
  simpa using h2

theorem pyStrip_isInfix (s : Str) : pyStrip s <:+: s := by
  unfold pyStrip
  exact ((reverse_dropWhile_isPre pySpace (s.dropWhile pySpace)).isInfix).trans
    (List.dropWhile_suffix pySpace).isInfix

theorem mem_intersperse_of_mem (sep : Str) :
    ∀ (L : List Str) (x : Str), x ∈ L → x ∈ L.intersperse sep := by
  intro L
  induction L with
  | nil => intro x hx; cases hx
  | cons y ys ih =>
    intro x hx
    rcases ys with _ | ⟨z, zs⟩
    · simpa using hx
    · rcases List.mem_cons.mp hx with rfl | hx
      · simp
      · simp only [List.intersperse_cons₂, List.mem_cons]
        right; right; exact ih x hx

theorem mem_isInfix_intercalate (sep : Str) (L : List Str) (x : Str) (hx : x ∈ L) :
    x <:+: List.intercalate sep L := by
  unfold List.intercalate
  exact List.infix_of_mem_flatten (mem_intersperse_of_mem sep L x hx)

/-- Every quote `_extract_quote_from_chunk` produces is a contiguous
substring of the chunk's cleaned body text. -/
theorem extract_quote_isInfix_body (chunk : Chunk) :
    extract_quote_from_chunk chunk <:+: chunk_body_text chunk := by
  have htake : ∀ (l : Str), l.take 80 <+: l := fun l => ⟨l.drop 80, List.take_append_drop 80 l⟩
  unfold extract_quote_from_chunk
  cases h1 : (chunk_body_lines chunk).find?
      (fun l => decide (40 ≤ l.length) && decide (7/10 ≤ allowed_char_ratio l)) with
  | some l =>
    have hl : l ∈ chunk_body_lines chunk := List.mem_of_find?_eq_some h1
    simp only [h1]
    exact ((htake l).isInfix).trans (mem_isInfix_intercalate _ _ _ hl)
  | none =>
    simp only [h1]
    cases h2 : (chunk_body_lines chunk).find?
        (fun l => decide (20 ≤ l.length) && decide (7/10 ≤ allowed_char_ratio l)) with
    | some l =>
      have hl : l ∈ chunk_body_lines chunk := List.mem_of_find?_eq_some h2
      simp only [h2]
      exact ((htake l).isInfix).trans (mem_isInfix_intercalate _ _ _ hl)
    | none =>
      simp only [h2]
      have hbody : pyStrip (List.intercalate [' '] (chunk_body_lines chunk)) <:+:
          chunk_body_text chunk := pyStrip_isInfix _
      split_ifs
      · exact ((htake _).isInfix).trans hbody
      · exact ((htake _).isInfix).trans hbody
      · exact List.nil_infix

theorem mem_of_mem_search_index (msqrt : ℚ → ℚ) (embed : Str → List ℚ) (query : Str)
    (chunks : List Chunk) (embeddings : List (List ℚ)) (k : Nat) :
    ∀ c ∈ search_index msqrt embed query chunks embeddings k, c ∈ chunks := by
  intro c hc
  unfold search_index at hc
  obtain ⟨p, hp, rfl⟩ := List.mem_map.mp hc
  have hp2 : p ∈ (search_scored msqrt (embed query) chunks embeddings).mergeSort score_desc :=
    List.mem_of_mem_take hp
  have hp3 : p ∈ search_scored msqrt (embed query) chunks embeddings :=
    (List.mergeSort_perm _ _).mem_iff.mp hp2
  unfold search_scored at hp3
  obtain ⟨ce, hce, h⟩ := List.mem_map.mp hp3
  have hmem := List.of_mem_zip hce
  rw [← h]
  exact hmem.1

theorem mem_of_mem_filter_low_info (chunks : List Chunk) :
    ∀ c ∈ filter_low_info_chunks chunks, c ∈ chunks := by
  intro c hc
  exact List.mem_of_mem_filter hc

theorem mem_of_chunkLookup (chunks : List Chunk) (cid : Str) (c : Chunk)
    (h : chunkLookup chunks cid = some c) : c ∈ chunks ∧ c.chunk_id = cid := by
  unfold chunkLookup at h
  refine ⟨List.mem_reverse.mp (List.mem_of_find?_eq_some h), ?_⟩
  have := List.find?_some h
  simpa using this

theorem mem_of_mem_collect_evidence (citations : List Citation) (chunks fallback : List Chunk) :
    ∀ c ∈ collect_evidence_by_citations citations chunks fallback,
      c ∈ chunks ∨ c ∈ fallback := by
  intro c hc
  simp only [collect_evidence_by_citations] at hc
  split at hc
  · exact Or.inr hc
  · left
    obtain ⟨cit, _, heq⟩ := List.mem_filterMap.mp hc
    split at heq
    · exact (mem_of_chunkLookup chunks cit.chunk_id c heq).1
    · cases heq

theorem mem_of_mem_dedupByChunkId (chunks : List Chunk) :
    ∀ c ∈ dedupByChunkId chunks, c ∈ chunks := by
  suffices h : ∀ (l : List Chunk) (acc : List Chunk × List Str),
      ∀ c ∈ (l.foldl (fun acc chunk =>
        if acc.2.contains chunk.chunk_id then acc
        else (acc.1 ++ [chunk], acc.2 ++ [chunk.chunk_id])) acc).1,
        c ∈ acc.1 ∨ c ∈ l by
    intro c hc
    rcases h chunks ([], []) c hc with h' | h'
    · cases h'
    · exact h'
  intro l
  induction l with
  | nil => intro acc c hc; exact Or.inl hc
  | cons x xs ih =>
    intro acc c hc
    simp only [List.foldl_cons] at hc
    rcases ih _ c hc with h' | h'
    · by_cases hx : acc.2.contains x.chunk_id
      · rw [if_pos hx] at h'
        exact Or.inl h'
      · rw [if_neg hx] at h'
        rcases List.mem_append.mp h' with h'' | h''
        · exact Or.inl h''
        · simp only [List.mem_singleton] at h''
          exact Or.inr (h'' ▸ List.mem_cons_self x xs)
    · exact Or.inr (List.mem_cons_of_mem x h')

theorem mem_of_mem_select_evidence (msqrt : ℚ → ℚ) (embed : Str → List ℚ)
    (concept : Concept) (chunks : List Chunk) (embeddings : List (List ℚ)) :
    ∀ c ∈ select_evidence_chunks msqrt embed concept chunks embeddings, c ∈ chunks := by
  intro c hc
  simp only [select_evidence_chunks] at hc
  have hc2 := List.mem_of_mem_take hc
  have hc3 := mem_of_mem_dedupByChunkId _ c hc2
  have hfall : ∀ x ∈ search_index msqrt embed concept.name chunks embeddings 8, x ∈ chunks :=
    mem_of_mem_search_index msqrt embed concept.name chunks embeddings 8
  split at hc3 <;> (try split at hc3) <;>
    first
    | exact List.mem_of_mem_filter (List.mem_of_mem_take hc3)
    | exact hfall c (List.mem_of_mem_filter hc3)
    | (rcases mem_of_mem_collect_evidence _ _ _ c (List.mem_of_mem_filter hc3) with h | h
       exacts [h, hfall c h])

/-! ## Character-case and string helpers for the mcq option discipline -/

theorem toNat_ofNat_valid (n : Nat) (h : n < 55296) : (Char.ofNat n).toNat = n := by
  unfold Char.ofNat
  rw [dif_pos (Or.inl h)]
  rfl

theorem char_eq_of_toNat (l : Char) (m : Nat) (h : l.toNat = m) : l = Char.ofNat m := by
  rw [← h, Char.ofNat_toNat]

theorem char_le_toNat (a b : Char) (h : a ≤ b) : a.toNat ≤ b.toNat := by
  rw [Char.le_def, UInt32.le_def] at h
  exact h

theorem char_toNat_le (a b : Char) (h : a.toNat ≤ b.toNat) : a ≤ b := by
  rw [Char.le_def, UInt32.le_def]
  exact h

/-- `pyLowerChar` of an upper-case ASCII letter adds 32. -/
theorem pyLowerChar_of_upper_range (U : Char) (h1 : 65 ≤ U.toNat) (h2 : U.toNat ≤ 90) :
    pyLowerChar U = Char.ofNat (U.toNat + 32) := by
  unfold pyLowerChar
  rw [if_pos ⟨char_toNat_le _ _ h1, char_toNat_le _ _ h2⟩]

/-- If upper-casing `l` yields the letter `U`, then lower-casing `l` yields
the lower-case form of `U`: upper- and lower-case preimages agree after
`pyLowerChar`. -/
theorem pyLowerChar_eq_of_pyUpperChar (l U : Char) (hu : pyUpperChar l = U)
    (h1 : 65 ≤ U.toNat) (h2 : U.toNat ≤ 90) :
    pyLowerChar l = Char.ofNat (U.toNat + 32) := by
  unfold pyUpperChar at hu
  split_ifs at hu with hcase
  · obtain ⟨hal, hlz⟩ := hcase
    have hal' : 97 ≤ l.toNat := char_le_toNat _ _ hal
    have hlz' : l.toNat ≤ 122 := char_le_toNat _ _ hlz
    have hvalid : l.toNat - 32 < 55296 := by omega
    have hun : U.toNat = l.toNat - 32 := by
      rw [← hu, toNat_ofNat_valid _ hvalid]
    unfold pyLowerChar
    rw [if_neg]
    · exact char_eq_of_toNat l _ (by omega)
    · rintro ⟨-, h4⟩
      have h4' : l.toNat ≤ 90 := char_le_toNat _ _ h4
      omega
  · subst hu
    exact pyLowerChar_of_upper_range l h1 h2

theorem map_eq_singleton_char (f : Char → Char) (s : Str) (a : Char)
    (h : s.map f = [a]) : ∃ l, s = [l] ∧ f l = a := by
  cases s with
  | nil => cases h
  | cons c t =>
    rw [List.map_cons] at h
    injection h with h1 h2
    cases t with
    | nil => exact ⟨c, rfl, h1⟩
    | cons x xs => cases h2

theorem strIn_single_head (c : Char) (t : Str) : strIn [c] (c :: t) = true := by
  simp [strIn, List.isPrefixOf]

/-- Stripping a string with a non-space head keeps that head. -/
theorem pyStrip_cons_of_not_space (c : Char) (s : Str) (hc : pySpace c = false) :
    ∃ t, pyStrip (c :: s) = c :: t := by
  have h1 : (c :: s).dropWhile pySpace = c :: s := by
    rw [List.dropWhile_cons, if_neg (by simp [hc])]
  have hpre : ((c :: s).reverse.dropWhile pySpace).reverse <+: c :: s :=
    reverse_dropWhile_isPre pySpace (c :: s)
  have hne : (c :: s).reverse.dropWhile pySpace ≠ [] := by
    intro h0
    rw [List.dropWhile_eq_nil_iff] at h0
    have := h0 c (by simp)
    rw [hc] at this
    exact Bool.noConfusion this
  unfold pyStrip
  rw [h1]
  obtain ⟨t2, ht⟩ := hpre
  cases hXr : ((c :: s).reverse.dropWhile pySpace).reverse with
  | nil => exact absurd (List.reverse_eq_nil_iff.mp hXr) hne
  | cons a t =>
    rw [hXr] at ht
    injection ht with h5 h6
    exact ⟨t, by rw [h5]⟩

theorem mcq_discipline_trivial (q : Question) (h1 : q.correct_option = none)
    (h2 : q.choices = []) : mcq_option_discipline q := by
  constructor
  · intro c hc
    rw [h1] at hc
    cases hc
  · intro _ hlen
    rw [h2] at hlen
    cases hlen

theorem mcq_discipline_congr (p q : Question)
    (hco : p.correct_option = q.correct_option) (hch : p.choices = q.choices)
    (han : p.answer = q.answer) (h : mcq_option_discipline q) :
    mcq_option_discipline p := by
  unfold mcq_option_discipline at h ⊢
  rw [hco, hch, han]
  exact h

theorem normalize_mcq_choices_length (cs : List PyVal) :
    (normalize_mcq_choices cs).length ≤ 4 := by
  unfold normalize_mcq_choices
  rw [List.length_map, List.enum_length, List.length_take]
  omega

theorem normalize_mcq_choices_get (cs : List PyVal) (j : Nat)
    (h : j < (normalize_mcq_choices cs).length) :
    ∃ r, (normalize_mcq_choices cs).get ⟨j, h⟩ = pyStrip (choiceLetter j :: ' ' :: r) := by
  have hj : j < ((cs.take 4).enum).length := by
    unfold normalize_mcq_choices at h
    rw [List.length_map] at h
    exact h
  have hj2 : j < (cs.take 4).length := by rw [← List.enum_length]; exact hj
  refine ⟨strip_choice_head (choice_text ((cs.take 4).get ⟨j, hj2⟩)), ?_⟩
  unfold normalize_mcq_choices
  rw [List.get_eq_getElem, List.getElem_map, List.getElem_enum]
  rfl

theorem choiceLetter_lt_four (i : Nat) (h : i < 4) :
    choiceLetter i = 'A' ∨ choiceLetter i = 'B' ∨ choiceLetter i = 'C' ∨
    choiceLetter i = 'D' := by
  have h4 : i = 0 ∨ i = 1 ∨ i = 2 ∨ i = 3 := by omega
  rcases h4 with rfl | rfl | rfl | rfl
  · left; decide
  · right; left; decide
  · right; right; left; decide
  · right; right; right; decide

/-- A present `correct_option` from the mcq branch is a letter read off the
`correct` string, or the letter of an existing choice index. -/
theorem mcq_co_some (raw : List (Str × PyVal)) (choices : List Str) (c : Str)
    (h : mcq_correct_option raw choices = some c) :
    (∃ c0, c = [c0] ∧ charIn ['A', 'B', 'C', 'D'] c0 = true) ∨
    (∃ i, i < choices.length ∧ c = [choiceLetter i]) := by
  have hInfer : mcq_co_infer raw choices = some c →
      ∃ i, i < choices.length ∧ c = [choiceLetter i] := by
    intro hi
    unfold mcq_co_infer at hi
    obtain ⟨ic, hic, hc⟩ := Option.map_eq_some'.mp hi
    have hmem : ic ∈ choices.enum := List.mem_of_find?_eq_some hic
    have hlt := (List.mem_enumFrom (by simpa [List.enum] using hmem)).2.1
    exact ⟨ic.1, by omega, hc.symm⟩
  unfold mcq_correct_option at h
  split at h
  · split at h
    · rename_i c0 tl heq hin
      injection h with h1
      exact Or.inl ⟨c0, h1.symm, hin⟩
    · exact Or.inr (hInfer h)
  · exact Or.inr (hInfer h)

theorem mcq_co_none_infer (raw : List (Str × PyVal)) (choices : List Str)
    (h : mcq_correct_option raw choices = none) :
    mcq_co_infer raw choices = none := by
  unfold mcq_correct_option at h
  split at h
  · split at h
    · cases h
    · exact h
  · exact h

/-- If the stripped answer is the single character `l` and some choice's
text starts with a character of the same lower-case form, the inference
scan of the mcq branch finds a choice. -/
theorem mcq_infer_isSome (raw : List (Str × PyVal)) (choices : List Str)
    (l : Char) (j : Nat) (hj : j < choices.length)
    (hans : pyStrip (pyStrOf ((dget raw "answer".data).getD (.vstr []))) = [l])
    (hd : Char) (t : Str) (hget : choices.get ⟨j, hj⟩ = hd :: t)
    (hlow : pyLowerChar hd = pyLowerChar l) :
    mcq_co_infer raw choices ≠ none := by
  intro hnone
  unfold mcq_co_infer at hnone
  have hfind := Option.map_eq_none'.mp hnone
  have hAll := List.find?_eq_none.mp hfind
  have hjj : j < choices.enum.length := by rw [List.enum_length]; exact hj
  have hmem : (j, choices.get ⟨j, hj⟩) ∈ choices.enum := by
    have : choices.enum.get ⟨j, hjj⟩ = (j, choices.get ⟨j, hj⟩) := by
      rw [List.get_eq_getElem, List.get_eq_getElem, List.getElem_enum]
    rw [← this]
    exact List.get_mem choices.enum j hjj
  have hp := hAll _ hmem
  apply hp
  have hstrip : strip_choice_head (pyStrOf ((dget raw "answer".data).getD (.vstr []))) =
      [l] := by
    unfold strip_choice_head
    rw [hans]
  rw [hstrip]
  simp only [Bool.and_eq_true, decide_eq_true_eq]
  constructor
  · intro hfalse; cases hfalse
  · show strIn (pyLower [l]) (pyLower (j, choices.get ⟨j, hj⟩).2) = true
    rw [hget]
    have h2 : pyLower (hd :: t) = pyLowerChar l :: pyLower t := by
      unfold pyLower
      rw [List.map_cons, hlow]
    have h1 : pyLower [l] = [pyLowerChar l] := rfl
    rw [h2, h1]
    exact strIn_single_head (pyLowerChar l) (pyLower t)

theorem match_co_answer (o : Option Str) (d c : Str) (h : o = some c) :
    o.getD d = c := by rw [h]; rfl

theorem match_co_answer_none (o : Option Str) (d : Str) (h : o = none) :
    o.getD d = d := by rw [h]; rfl

/-- The engine of the absent-option clause: with a bare-letter answer and
the letter's choice slot present, the inference scan of the mcq branch
cannot fail. -/
theorem mcq_part2_case (raw : List (Str × PyVal)) (cs : List PyVal)
    (U : Char) (j : Nat) (hUj : choiceLetter j = U)
    (hU1 : 65 ≤ U.toNat) (hU2 : U.toNat ≤ 90) (hUsp : pySpace U = false)
    (hlen : (normalize_mcq_choices cs).length = 4) (hj4 : j < 4)
    (h : pyUpper (pyStrip (pyStrOf ((dget raw "answer".data).getD (.vstr [])))) = [U]) :
    mcq_co_infer raw (normalize_mcq_choices cs) ≠ none := by
  have hj : j < (normalize_mcq_choices cs).length := by omega
  obtain ⟨l, hansl, hup⟩ := map_eq_singleton_char pyUpperChar _ U (by simpa [pyUpper] using h)
  obtain ⟨r, hr⟩ := normalize_mcq_choices_get cs j hj
  have hsp : pySpace (choiceLetter j) = false := by rw [hUj]; exact hUsp
  obtain ⟨t, ht⟩ := pyStrip_cons_of_not_space (choiceLetter j) (' ' :: r) hsp
  have hget : (normalize_mcq_choices cs).get ⟨j, hj⟩ = choiceLetter j :: t := by
    rw [hr, ht]
  have hlow : pyLowerChar (choiceLetter j) = pyLowerChar l := by
    rw [hUj, pyLowerChar_eq_of_pyUpperChar l U hup hU1 hU2]
    exact pyLowerChar_of_upper_range U hU1 hU2
  exact mcq_infer_isSome raw _ l j hj hansl (choiceLetter j) t hget hlow

/-- `normalize_question` enforces the mcq option discipline on every
output: a present `correct_option` is a letter `A`–`D` with `answer` set
to it, and when both the `correct` read-off and the inference fail on a
full 4-choice list the answer cannot be a bare option letter. -/
theorem normalize_question_discipline (raw : List (Str × PyVal)) (fid : Str) :
    mcq_option_discipline (normalize_question raw fid) := by
  simp only [normalize_question]
  by_cases hm : normalize_q_type raw = "mcq".data
  · simp only [hm, reduceIte]
    constructor
    · intro c hc
      simp only [] at hc
      refine ⟨?_, by simp only [hc]⟩
      rcases mcq_co_some raw _ c hc with ⟨c0, rfl, hc0⟩ | ⟨i, hi, rfl⟩
      · have hc0m : c0 = 'A' ∨ c0 = 'B' ∨ c0 = 'C' ∨ c0 = 'D' := by
          simpa [charIn] using hc0
        rcases hc0m with rfl | rfl | rfl | rfl
        · left; rfl
        · right; left; rfl
        · right; right; left; rfl
        · right; right; right; rfl
      · have hi4 : i < 4 := lt_of_lt_of_le hi (normalize_mcq_choices_length _)
        rcases choiceLetter_lt_four i hi4 with h | h | h | h <;> rw [h]
        · left; rfl
        · right; left; rfl
        · right; right; left; rfl
        · right; right; right; rfl
    · intro hnone hlen habs
      simp only [] at hnone hlen habs
      have hinfer := mcq_co_none_infer raw _ hnone
      simp only [hnone] at habs
      rcases habs with h | h | h | h
      · exact mcq_part2_case raw _ 'A' 0 (by decide) (by decide) (by decide) (by decide)
          hlen (by omega) h hinfer
      · exact mcq_part2_case raw _ 'B' 1 (by decide) (by decide) (by decide) (by decide)
          hlen (by omega) h hinfer
      · exact mcq_part2_case raw _ 'C' 2 (by decide) (by decide) (by decide) (by decide)
          hlen (by omega) h hinfer
      · exact mcq_part2_case raw _ 'D' 3 (by decide) (by decide) (by decide) (by decide)
          hlen (by omega) h hinfer
  · rw [if_neg hm]
    split
    · split
      · exact mcq_discipline_trivial _ rfl rfl
      · split
        · exact mcq_discipline_trivial _ rfl rfl
        · exact mcq_discipline_trivial _ rfl rfl
    · split
      · exact mcq_discipline_trivial _ rfl rfl
      · exact mcq_discipline_trivial _ rfl rfl

/-! ## The ensure-repairs establish the generator invariant -/

theorem validate_question_false_of_no_quotes (q : Question) (s : Settings)
    (h : q.evidence_quotes = []) : validate_question q s = false := by
  simp [validate_question, h]

theorem gate_invariant_of_no_quotes (settings : Settings) (chunks : List Chunk)
    (q : Question) (h : q.evidence_quotes = []) : gate_invariant settings chunks q := by
  intro hval
  rw [validate_question_false_of_no_quotes q settings h] at hval
  exact Bool.noConfusion hval

theorem ensure_rationale_fields (q : Question) :
    (ensure_rationale_quotes q).evidence_quotes = q.evidence_quotes ∧
    (ensure_rationale_quotes q).citations = q.citations ∧
    (ensure_rationale_quotes q).correct_option = q.correct_option ∧
    (ensure_rationale_quotes q).choices = q.choices ∧
    (ensure_rationale_quotes q).answer = q.answer := by
  unfold ensure_rationale_quotes
  split
  · exact ⟨rfl, rfl, rfl, rfl, rfl⟩
  · split <;> exact ⟨rfl, rfl, rfl, rfl, rfl⟩

theorem ensure_citations_known (chunks : List Chunk) (q : Question) (ev : List Chunk)
    (hev : ∀ c ∈ ev, c ∈ chunks) :
    citations_known chunks (ensure_citations q ev) := by
  intro cit hcit
  simp only [ensure_citations] at hcit
  have hsub : ∀ x ∈ q.citations.filter
      (fun c => (ev.map fun e => e.chunk_id).contains c.chunk_id),
      x.chunk_id ∈ chunks.map fun c => c.chunk_id := by
    intro x hx
    have hp := List.of_mem_filter hx
    have hm : x.chunk_id ∈ ev.map fun e => e.chunk_id := by simpa using hp
    obtain ⟨e, he, heq⟩ := List.mem_map.mp hm
    exact List.mem_map.mpr ⟨e, hev e he, heq⟩
  split at hcit
  · split at hcit
    · rename_i ch tl hfe
      have : cit = ⟨ch.page, ch.chunk_id⟩ := by simpa using hcit
      subst this
      exact List.mem_map.mpr ⟨ch, hev ch (List.mem_cons_self ch tl), rfl⟩
    · exact hsub cit hcit
  · exact hsub cit hcit

theorem ensure_evidence_quotes_ground (chunks : List Chunk) (q : Question)
    (ev : List Chunk) (hev : ∀ c ∈ ev, c ∈ chunks)
    (hnd : (chunks.map fun c => c.chunk_id).Nodup) :
    quotes_ground_in_bodies chunks (ensure_evidence_quotes q ev) := by
  intro eq heq c hc hid
  simp only [ensure_evidence_quotes] at heq
  have hone : ∀ chunk : Chunk, chunk ∈ ev →
      eq = (⟨chunk.page, chunk.chunk_id, extract_quote_from_chunk chunk⟩ : EvidenceQuote) →
      eq.quote <:+: chunk_body_text c := by
    intro chunk hchunk heqq
    have hcc : c = chunk := by
      apply List.inj_on_of_nodup_map hnd hc (hev chunk hchunk)
      show c.chunk_id = chunk.chunk_id
      rw [hid, heqq]
    rw [hcc, heqq]
    exact extract_quote_isInfix_body chunk
  split at heq
  · rename_i e h1
    have he : eq = e := by simpa using heq
    subst he
    obtain ⟨cit, hcit, hf⟩ := List.exists_of_findSome?_eq_some h1
    split at hf
    · cases hf
    · rename_i chunk hlook
      split at hf
      · cases hf
      · injection hf with hf
        exact hone chunk (mem_of_chunkLookup ev cit.chunk_id chunk hlook).1 hf.symm
  · split at heq
    · rename_i e h2
      have he : eq = e := by simpa using heq
      subst he
      obtain ⟨chunk, hchunk, hf⟩ := List.exists_of_findSome?_eq_some h2
      split at hf
      · cases hf
      · injection hf with hf
        exact hone chunk hchunk hf.symm
    · cases heq

/-- The repair chain establishes the full generator invariant given the mcq
discipline of its input. -/
theorem repairEnsure_invariant (chunks ev : List Chunk) (q : Question)
    (hev : ∀ c ∈ ev, c ∈ chunks)
    (hnd : (chunks.map fun c => c.chunk_id).Nodup)
    (hd : mcq_option_discipline q) :
    generator_invariant chunks (repairEnsure q ev) := by
  obtain ⟨h1, h2, h3, h4, h5⟩ :=
    ensure_rationale_fields (ensure_evidence_quotes (ensure_citations q ev) ev)
  refine ⟨?_, ?_, ?_⟩
  · intro eq heq c hc hid
    rw [show (repairEnsure q ev).evidence_quotes =
        (ensure_evidence_quotes (ensure_citations q ev) ev).evidence_quotes from h1] at heq
    exact ensure_evidence_quotes_ground chunks (ensure_citations q ev) ev hev hnd eq heq c hc hid
  · intro cit hcit
    rw [show (repairEnsure q ev).citations =
        (ensure_evidence_quotes (ensure_citations q ev) ev).citations from h2] at hcit
    exact ensure_citations_known chunks q ev hev cit hcit
  · exact mcq_discipline_congr _ q h3 h4 h5 hd

/-! ## The generation and verify loops preserve gate-soundness -/

theorem genPrepared_fields (concept : Concept) (qid qtype : Str)
    (rawDict : List (Str × PyVal)) :
    (genPrepared concept qid qtype rawDict).evidence_quotes = [] ∧
    (genPrepared concept qid qtype rawDict).correct_option =
      (normalize_question rawDict qid).correct_option ∧
    (genPrepared concept qid qtype rawDict).choices =
      (normalize_question rawDict qid).choices ∧
    (genPrepared concept qid qtype rawDict).answer =
      (normalize_question rawDict qid).answer := by
  simp only [genPrepared]
  split <;> exact ⟨rfl, rfl, rfl, rfl⟩

theorem tfFixed_fields (q : Question) (qtype : Str) :
    (tfFixed q qtype).evidence_quotes = q.evidence_quotes ∧
    (tfFixed q qtype).correct_option = q.correct_option ∧
    (tfFixed q qtype).choices = q.choices ∧
    (tfFixed q qtype).answer = q.answer := by
  unfold tfFixed
  split
  · split <;> exact ⟨rfl, rfl, rfl, rfl⟩
  · exact ⟨rfl, rfl, rfl, rfl⟩

/-- The mcq option discipline of the generation loop's prepared-and-fixed
question, inherited from `normalize_question`. -/
theorem tfFixed_genPrepared_discipline (concept : Concept) (qid qtype qtype2 : Str)
    (rawDict : List (Str × PyVal)) :
    mcq_option_discipline (tfFixed (genPrepared concept qid qtype rawDict) qtype2) := by
  obtain ⟨-, hg2, hg3, hg4⟩ := genPrepared_fields concept qid qtype rawDict
  obtain ⟨-, ht2, ht3, ht4⟩ := tfFixed_fields (genPrepared concept qid qtype rawDict) qtype2
  exact mcq_discipline_congr _ _ (ht2.trans hg2) (ht3.trans hg3) (ht4.trans hg4)
    (normalize_question_discipline rawDict qid)

set_option maxHeartbeats 2000000 in
theorem genAttempts_invariant (settings : Settings) (concept : Concept)
    (ev chunks : List Chunk) (qid qtype : Str)
    (hev : ∀ c ∈ ev, c ∈ chunks)
    (hnd : (chunks.map fun c => c.chunk_id).Nodup) :
    ∀ (fuel : Nat) (q : Question) (stream : List PyVal),
      gate_invariant settings chunks q →
      gate_invariant settings chunks
        (genAttempts settings concept ev qid qtype fuel q stream).1 := by
  intro fuel
  induction fuel with
  | zero => intro q stream hq; exact hq
  | succ n ih =>
    intro q stream hq
    simp only [genAttempts]
    split
    · exact ih q _ hq
    · split
      · refine ih _ _ (gate_invariant_of_no_quotes settings chunks _ ?_)
        exact (genPrepared_fields concept qid qtype _).1
      · have hq2ev : (tfFixed (genPrepared concept qid qtype
            (match stream.headD (.vdict []) with | .vdict kv => kv | _ => [])) qtype).evidence_quotes
            = [] := by
          obtain ⟨ht, -, -, -⟩ := tfFixed_fields _ qtype
          rw [ht]
          exact (genPrepared_fields concept qid qtype _).1
        split
        · exact ih _ _ (gate_invariant_of_no_quotes settings chunks _ hq2ev)
        · split
          · exact ih _ _ (gate_invariant_of_no_quotes settings chunks _ hq2ev)
          · split
            · exact ih _ _ (gate_invariant_of_no_quotes settings chunks _ hq2ev)
            · have hinv := repairEnsure_invariant chunks ev _ hev hnd
                (tfFixed_genPrepared_discipline concept qid qtype qtype
                  (match stream.headD (.vdict []) with | .vdict kv => kv | _ => []))
              split
              · exact fun _ => hinv
              · exact ih _ _ (fun _ => hinv)

theorem generate_question_invariant (settings : Settings) (concept : Concept)
    (ev chunks : List Chunk) (qid qtype : Str) (stream : List PyVal)
    (hev : ∀ c ∈ ev, c ∈ chunks)
    (hnd : (chunks.map fun c => c.chunk_id).Nodup) :
    gate_invariant settings chunks
      (generate_question_for_concept settings concept ev qid qtype stream).1 := by
  unfold generate_question_for_concept
  exact genAttempts_invariant settings concept ev chunks qid qtype hev hnd _ {} stream
    (gate_invariant_of_no_quotes settings chunks {} rfl)

theorem mem_of_mem_verifyEvidence (msqrt : ℚ → ℚ) (embed : Str → List ℚ)
    (current : Question) (chunks : List Chunk) (embeddings : List (List ℚ)) :
    ∀ c ∈ verifyEvidence msqrt embed current chunks embeddings, c ∈ chunks := by
  intro c hc
  simp only [verifyEvidence] at hc
  have hfall : ∀ x ∈ filter_low_info_chunks
      (search_index msqrt embed current.question chunks embeddings 5), x ∈ chunks :=
    fun x hx => mem_of_mem_search_index msqrt embed current.question chunks embeddings 5 x
      (List.mem_of_mem_filter hx)
  split at hc
  · split at hc
    · exact List.mem_of_mem_filter (List.mem_of_mem_take hc)
    · exact hfall c hc
  · rcases mem_of_mem_collect_evidence current.citations chunks _ c
      (List.mem_of_mem_filter hc) with h | h
    · exact h
    · exact hfall c h

theorem tfFixed_revise_discipline (revkv : List (Str × PyVal)) (cid qt : Str) :
    mcq_option_discipline (tfFixed (reviseProposed revkv cid) qt) := by
  obtain ⟨-, ht2, ht3, ht4⟩ := tfFixed_fields (reviseProposed revkv cid) qt
  exact mcq_discipline_congr _ _
    (ht2.trans (rfl :
      (reviseProposed revkv cid).correct_option = (normalize_question revkv cid).correct_option))
    (ht3.trans (rfl :
      (reviseProposed revkv cid).choices = (normalize_question revkv cid).choices))
    (ht4.trans (rfl :
      (reviseProposed revkv cid).answer = (normalize_question revkv cid).answer))
    (normalize_question_discipline revkv cid)

set_option maxHeartbeats 2000000 in
theorem verifyAttempts_invariant (settings : Settings) (msqrt : ℚ → ℚ)
    (embed : Str → List ℚ) (chunks : List Chunk) (embeddings : List (List ℚ))
    (hnd : (chunks.map fun c => c.chunk_id).Nodup) :
    ∀ (fuel : Nat) (current : Question) (stream : List PyVal),
      gate_invariant settings chunks current →
      gate_invariant settings chunks
        (verifyAttempts settings msqrt embed chunks embeddings fuel current stream).1 := by
  intro fuel
  induction fuel with
  | zero => intro q stream hq; exact hq
  | succ n ih =>
    intro q stream hq
    simp only [verifyAttempts]
    split
    · exact hq
    · split
      · rename_i revkv heq
        have hq2ev : (tfFixed (reviseProposed revkv q.id)
            (reviseProposed revkv q.id).type).evidence_quotes = [] := by
          obtain ⟨ht, -, -, -⟩ := tfFixed_fields (reviseProposed revkv q.id)
            (reviseProposed revkv q.id).type
          rw [ht]
          rfl
        split
        · exact ih _ _ (gate_invariant_of_no_quotes settings chunks _ rfl)
        · split
          · exact ih _ _ (gate_invariant_of_no_quotes settings chunks _ hq2ev)
          · split
            · exact ih _ _ (gate_invariant_of_no_quotes settings chunks _ hq2ev)
            · have hinv := repairEnsure_invariant chunks
                (verifyEvidence msqrt embed q chunks embeddings) _
                (mem_of_mem_verifyEvidence msqrt embed q chunks embeddings) hnd
                (tfFixed_revise_discipline revkv q.id (reviseProposed revkv q.id).type)
              split
              · exact fun _ => hinv
              · exact ih _ _ (fun _ => hinv)
      · exact ih _ _ hq

set_option maxHeartbeats 2000000 in
theorem verifyRegen_invariant (settings : Settings) (msqrt : ℚ → ℚ)
    (embed : Str → List ℚ) (chunks : List Chunk) (embeddings : List (List ℚ))
    (concept_lookup : Str → Option Concept)
    (hnd : (chunks.map fun c => c.chunk_id).Nodup)
    (r1 : Question × List PyVal) (h : gate_invariant settings chunks r1.1) :
    gate_invariant settings chunks
      (verifyRegen settings msqrt embed chunks embeddings concept_lookup r1).1 := by
  simp only [verifyRegen]
  by_cases hval : validate_question r1.1 settings = true
  · rw [if_pos hval]
    exact h
  · rw [if_neg hval]
    cases hct : r1.1.concept_tags with
    | nil =>
      simp only []
      cases hcl : concept_lookup [] with
      | none => simp only [hcl]; exact h
      | some concept =>
        simp only [hcl]
        by_cases hval2 : validate_question
            (generate_question_for_concept settings concept
              (select_evidence_chunks msqrt embed concept chunks embeddings) r1.1.id
              (if r1.1.type = [] then settings.question_types.headD [] else r1.1.type)
              r1.2).1 settings = true
        · rw [if_pos hval2]
          exact generate_question_invariant settings _ _ chunks _ _ _
            (fun c hc => mem_of_mem_select_evidence msqrt embed _ chunks embeddings c hc) hnd
        · rw [if_neg hval2]
          exact h
    | cons t ts =>
      cases t with
      | vstr nm =>
        simp only []
        cases hcl : concept_lookup nm with
        | none => simp only [hcl]; exact h
        | some concept =>
          simp only [hcl]
          by_cases hval2 : validate_question
              (generate_question_for_concept settings concept
                (select_evidence_chunks msqrt embed concept chunks embeddings) r1.1.id
                (if r1.1.type = [] then settings.question_types.headD [] else r1.1.type)
                r1.2).1 settings = true
          · rw [if_pos hval2]
            exact generate_question_invariant settings _ _ chunks _ _ _
              (fun c hc => mem_of_mem_select_evidence msqrt embed _ chunks embeddings c hc) hnd
          · rw [if_neg hval2]
            exact h
      | vnone => simp only []; exact h
      | vbool b => simp only []; exact h
      | vint i => simp only []; exact h
      | vlist xs => simp only []; exact h
      | vdict kv => simp only []; exact h

theorem verifyOne_invariant (settings : Settings) (msqrt : ℚ → ℚ)
    (embed : Str → List ℚ) (chunks : List Chunk) (embeddings : List (List ℚ))
    (concept_lookup : Str → Option Concept)
    (hnd : (chunks.map fun c => c.chunk_id).Nodup)
    (question : Question) (stream : List PyVal)
    (hq : gate_invariant settings chunks question) :
    ∀ v, (verifyOne settings msqrt embed chunks embeddings concept_lookup
        question stream).1 = some v →
      validate_question v settings = true ∧ generator_invariant chunks v := by
  intro v hv
  have hr2 : gate_invariant settings chunks
      (verifyRegen settings msqrt embed chunks embeddings concept_lookup
        (verifyAttempts settings msqrt embed chunks embeddings
          (settings.verify_retries + 1) question stream)).1 :=
    verifyRegen_invariant settings msqrt embed chunks embeddings concept_lookup hnd _
      (verifyAttempts_invariant settings msqrt embed chunks embeddings hnd _ question stream hq)
  simp only [verifyOne] at hv
  split at hv
  · injection hv with hv1
    subst hv1
    rename_i hval
    exact ⟨hval, hr2 hval⟩
  · cases hv

theorem verify_questions_invariant (settings : Settings) (msqrt : ℚ → ℚ)
    (embed : Str → List ℚ) (questions : List Question) (chunks : List Chunk)
    (embeddings : List (List ℚ)) (concept_lookup : Str → Option Concept)
    (stream : List PyVal)
    (hnd : (chunks.map fun c => c.chunk_id).Nodup)
    (hq : ∀ q ∈ questions, gate_invariant settings chunks q) :
    ∀ v ∈ (verify_questions settings msqrt embed questions chunks embeddings
        concept_lookup stream).1,
      validate_question v settings = true ∧ generator_invariant chunks v := by
  suffices h : ∀ (qs : List Question) (acc : List Question × List PyVal),
      (∀ p ∈ qs, gate_invariant settings chunks p) →
      (∀ w ∈ acc.1, validate_question w settings = true ∧ generator_invariant chunks w) →
      ∀ v ∈ (qs.foldl
        (fun acc q =>
          let r := verifyOne settings msqrt embed chunks embeddings concept_lookup q acc.2
          (match r.1 with
           | some u => acc.1 ++ [u]
           | none => acc.1, r.2)) acc).1,
        validate_question v settings = true ∧ generator_invariant chunks v by
    intro v hv
    exact h questions ([], stream) hq (by intro w hw; cases hw) v hv
  intro qs
  induction qs with
  | nil => intro acc h1 h2 v hv; exact h2 v hv
  | cons p ps ih =>
    intro acc h1 h2 v hv
    rw [List.foldl_cons] at hv
    refine ih _ (fun x hx => h1 x (List.mem_cons_of_mem p hx)) ?_ v hv
    intro w hw
    simp only [] at hw
    rcases hr : (verifyOne settings msqrt embed chunks embeddings concept_lookup p acc.2).1
      with _ | u
    · simp only [hr] at hw
      exact h2 w hw
    · simp only [hr] at hw
      rcases List.mem_append.mp hw with hw1 | hw2
      · exact h2 w hw1
      · have hwu : w = u := by simpa using hw2
        subst hwu
        exact verifyOne_invariant settings msqrt embed chunks embeddings concept_lookup hnd
          p acc.2 (h1 p (List.mem_cons_self p ps)) w hr

/-! ## Facts extracted from a passing validation gate -/

theorem bandl {a b : Bool} (h : (a && b) = true) : a = true := by
  simp only [Bool.and_eq_true] at h
  exact h.1

theorem bandr {a b : Bool} (h : (a && b) = true) : b = true := by
  simp only [Bool.and_eq_true] at h
  exact h.2

theorem bnot_true {a : Bool} (h : (!a) = true) : a = false := by
  cases a
  · rfl
  · cases h

theorem validate_question_facts (q : Question) (s : Settings)
    (h : validate_question q s = true) :
    q.citations ≠ [] ∧ q.evidence_quotes ≠ [] ∧
    ∀ eq ∈ q.evidence_quotes,
      20 ≤ (pyStrip eq.quote).length ∧ (pyStrip eq.quote).length ≤ 80 := by
  simp only [validate_question] at h
  have hC9 := bandl h
  have hC8 := bandl hC9
  have hC7 := bandl hC8
  have hC6 := bandl hC7
  have hA6 := bandr hC6
  have hC5 := bandl hC6
  have hA5 := bandr hC5
  have hC4 := bandl hC5
  have hA4 := bandr hC4
  refine ⟨of_decide_eq_true hA4, of_decide_eq_true hA5, fun eq heq => ?_⟩
  have hq := List.all_eq_true.mp hA6 eq heq
  simp only [] at hq
  exact ⟨of_decide_eq_true (bandl (bandl (bandl hq))),
    of_decide_eq_true (bandr (bandl (bandl hq)))⟩

theorem validate_question_mcq_facts (q : Question) (s : Settings)
    (hmcq : q.type = "mcq".data) (h : validate_question q s = true)
    (hd : mcq_option_discipline q) :
    q.choices.length = 4 ∧
    (∀ i (hi : i < q.choices.length),
      [choiceLetter i, ' '].isPrefixOf (q.choices.get ⟨i, hi⟩) = true) ∧
    has_banned_mcq_choice q.choices = false ∧
    ∃ c, q.correct_option = some c ∧
      (c = "A".data ∨ c = "B".data ∨ c = "C".data ∨ c = "D".data) ∧ q.answer = c := by
  simp only [validate_question] at h
  rw [hmcq] at h
  rw [show pyLower "mcq".data = "mcq".data from by decide] at h
  have hC9 := bandl h
  have hC8 := bandl hC9
  have hC7 := bandl hC8
  have hA7 := bandr hC7
  rw [if_pos (rfl : "mcq".data = "mcq".data)] at hA7
  have hLen := of_decide_eq_true (bandl (bandl (bandl hA7)))
  have hBan := bnot_true (bandr (bandl (bandl hA7)))
  have hPreAll := bandr (bandl hA7)
  have hCoB := bandr hA7
  simp only [] at hCoB
  refine ⟨hLen, ?_, hBan, ?_⟩
  · intro i hi
    have hjj : i < q.choices.enum.length := by rw [List.enum_length]; exact hi
    have hmem : (i, q.choices.get ⟨i, hi⟩) ∈ q.choices.enum := by
      have hgE : q.choices.enum.get ⟨i, hjj⟩ = (i, q.choices.get ⟨i, hi⟩) := by
        rw [List.get_eq_getElem, List.get_eq_getElem, List.getElem_enum]
      rw [← hgE]
      exact List.get_mem q.choices.enum i hjj
    simpa using List.all_eq_true.mp hPreAll _ hmem
  · cases hco : q.correct_option with
    | some c =>
      obtain ⟨hletter, hanswer⟩ := hd.1 c hco
      exact ⟨c, rfl, hletter, hanswer⟩
    | none =>
      exfalso
      rw [hco] at hCoB
      simp only [] at hCoB
      exact hd.2 hco hLen (of_decide_eq_true (bandl hCoB))

/-! ## The verify/repair claims -/

/-- **C1 (amended).** Every question emitted by `verify_questions` has its
evidence quotes grounded in the *cleaned body text* of the chunks they
cite: for every emitted question `v`, every quote of `v` is a contiguous
substring of `chunk_body_text c` for each known chunk `c` carrying the
quote's `chunk_id`.  (The original claim — a substring of the chunk's raw
`text` — is refuted by `verify_quote_not_raw_substring`: quotes are built
from whitespace-normalized, noise-filtered lines.)  The hypotheses: chunk
ids are distinct, and each input question satisfies the generator
invariant whenever it passes the gate — which `generate_question_for_concept`,
the source of all of `run_pipeline`'s inputs to `verify_questions`,
guarantees (`generate_question_invariant`). -/
theorem verify_questions_quotes_grounded (settings : Settings) (msqrt : ℚ → ℚ)
    (embed : Str → List ℚ) (questions : List Question) (chunks : List Chunk)
    (embeddings : List (List ℚ)) (concept_lookup : Str → Option Concept)
    (stream : List PyVal)
    (hnd : (chunks.map fun c => c.chunk_id).Nodup)
    (hq : ∀ q ∈ questions, gate_invariant settings chunks q) :
    ∀ v ∈ (verify_questions settings msqrt embed questions chunks embeddings
        concept_lookup stream).1, quotes_ground_in_bodies chunks v :=
  fun v hv =>
    ((verify_questions_invariant settings msqrt embed questions chunks embeddings
      concept_lookup stream hnd hq v hv).2).1

/-- Witness for **C1 (amended)** at a concrete input (no questions, no
chunks): the hypotheses hold trivially and the conclusion is about the
concrete empty run. -/
theorem verify_questions_quotes_grounded_witness :
    ((([] : List Chunk).map fun c => c.chunk_id).Nodup) ∧
    ∀ v ∈ (verify_questions {} (fun _ => 0) (fun _ => []) [] [] []
        (fun _ => none) []).1, quotes_ground_in_bodies [] v :=
  ⟨List.nodup_nil,
    verify_questions_quotes_grounded {} (fun _ => 0) (fun _ => []) [] [] []
      (fun _ => none) [] List.nodup_nil (fun q hq2 => absurd hq2 (List.not_mem_nil q))⟩

set_option maxHeartbeats 2000000 in
/-- **C1 (counterexample to the original claim).** With the empty verifier
stream, `verify_questions` emits `cxQuestion` unchanged — it passes the
full validation gate — and `cxQuestion`'s single evidence quote cites
`cxChunk`, the only known chunk, by id; yet the quote is **not** a
substring of `cxChunk.text`: `_extract_quote_from_chunk` reads
whitespace-normalized lines, which collapse the raw text's double space.
The same quote is what the pipeline itself attaches
(`_ensure_evidence_quotes`), so "quote is a substring of the chunk's text"
fails for emitted output; it holds only for the normalized body text. -/
theorem verify_quote_not_raw_substring :
    (verify_questions {} (fun _ => 0) (fun _ => []) [cxQuestion] [cxChunk] [[]]
        (fun _ => none) []).1 = [cxQuestion] ∧
    cxQuestion.evidence_quotes ≠ [] ∧
    (∀ eq ∈ cxQuestion.evidence_quotes, eq.chunk_id = cxChunk.chunk_id ∧
      ¬(eq.quote <:+: cxChunk.text)) := by
  refine ⟨rfl, by decide, by decide⟩

/-- **C2.** Every question emitted by `verify_questions` passes the full
validation gate: its citations list is non-empty and (by the generator
invariant) every cited `chunk_id` is a known chunk id; it has at least one
evidence quote, and every quote's stripped text is between 20 and 80
characters.  A question failing the gate after the rewrite and
regeneration attempts is dropped, never emitted: emission in `verifyOne`
is definitionally guarded by `validate_question`, and this theorem
re-states that guard for every member of the output. -/
theorem verify_questions_gate (settings : Settings) (msqrt : ℚ → ℚ)
    (embed : Str → List ℚ) (questions : List Question) (chunks : List Chunk)
    (embeddings : List (List ℚ)) (concept_lookup : Str → Option Concept)
    (stream : List PyVal)
    (hnd : (chunks.map fun c => c.chunk_id).Nodup)
    (hq : ∀ q ∈ questions, gate_invariant settings chunks q) :
    ∀ v ∈ (verify_questions settings msqrt embed questions chunks embeddings
        concept_lookup stream).1,
      validate_question v settings = true ∧
      v.citations ≠ [] ∧ citations_known chunks v ∧
      v.evidence_quotes ≠ [] ∧
      ∀ eq ∈ v.evidence_quotes,
        20 ≤ (pyStrip eq.quote).length ∧ (pyStrip eq.quote).length ≤ 80 := by
  intro v hv
  obtain ⟨hval, hinv⟩ := verify_questions_invariant settings msqrt embed questions chunks
    embeddings concept_lookup stream hnd hq v hv
  obtain ⟨hc, he, hq80⟩ := validate_question_facts v settings hval
  exact ⟨hval, hc, hinv.2.1, he, hq80⟩

/-- Witness for **C2** at a concrete input (no questions, no chunks). -/
theorem verify_questions_gate_witness :
    ((([] : List Chunk).map fun c => c.chunk_id).Nodup) ∧
    ∀ v ∈ (verify_questions {} (fun _ => 0) (fun _ => []) [] [] []
        (fun _ => none) []).1,
      validate_question v {} = true ∧
      v.citations ≠ [] ∧ citations_known [] v ∧
      v.evidence_quotes ≠ [] ∧
      ∀ eq ∈ v.evidence_quotes,
        20 ≤ (pyStrip eq.quote).length ∧ (pyStrip eq.quote).length ≤ 80 :=
  ⟨List.nodup_nil,
    verify_questions_gate {} (fun _ => 0) (fun _ => []) [] [] []
      (fun _ => none) [] List.nodup_nil (fun q hq2 => absurd hq2 (List.not_mem_nil q))⟩

/-- **C4.** Every mcq question emitted by `verify_questions` has exactly 4
choices; the `i`-th choice starts with the literal prefix `"A "`, `"B "`,
`"C "`, `"D "` respectively (`choiceLetter i` followed by a space); no
choice contains a banned "all of the above" variant (so a generated list
containing one can never appear in the final output — the gate rejects
it); `correct_option` is present and one of `A`–`D`; and `answer` equals
`correct_option`.  The hypotheses are as in `verify_questions_gate`; the
presence of `correct_option` combines the gate's letter test with the
option discipline `normalize_question` imposes
(`normalize_question_discipline`). -/
theorem verify_questions_mcq_shape (settings : Settings) (msqrt : ℚ → ℚ)
    (embed : Str → List ℚ) (questions : List Question) (chunks : List Chunk)
    (embeddings : List (List ℚ)) (concept_lookup : Str → Option Concept)
    (stream : List PyVal)
    (hnd : (chunks.map fun c => c.chunk_id).Nodup)
    (hq : ∀ q ∈ questions, gate_invariant settings chunks q) :
    ∀ v ∈ (verify_questions settings msqrt embed questions chunks embeddings
        concept_lookup stream).1, v.type = "mcq".data →
      v.choices.length = 4 ∧
      (∀ i (hi : i < v.choices.length),
        [choiceLetter i, ' '].isPrefixOf (v.choices.get ⟨i, hi⟩) = true) ∧
      has_banned_mcq_choice v.choices = false ∧
      ∃ c, v.correct_option = some c ∧
        (c = "A".data ∨ c = "B".data ∨ c = "C".data ∨ c = "D".data) ∧
        v.answer = c := by
  intro v hv ht
  obtain ⟨hval, hinv⟩ := verify_questions_invariant settings msqrt embed questions chunks
    embeddings concept_lookup stream hnd hq v hv
  exact validate_question_mcq_facts v settings ht hval hinv.2.2

/-- Witness for **C4** at a concrete input (no questions, no chunks). -/
theorem verify_questions_mcq_shape_witness :
    ((([] : List Chunk).map fun c => c.chunk_id).Nodup) ∧
    ∀ v ∈ (verify_questions {} (fun _ => 0) (fun _ => []) [] [] []
        (fun _ => none) []).1, v.type = "mcq".data →
      v.choices.length = 4 ∧
      (∀ i (hi : i < v.choices.length),
        [choiceLetter i, ' '].isPrefixOf (v.choices.get ⟨i, hi⟩) = true) ∧
      has_banned_mcq_choice v.choices = false ∧
      ∃ c, v.correct_option = some c ∧
        (c = "A".data ∨ c = "B".data ∨ c = "C".data ∨ c = "D".data) ∧
        v.answer = c :=
  ⟨List.nodup_nil,
    verify_questions_mcq_shape {} (fun _ => 0) (fun _ => []) [] [] []
      (fun _ => none) [] List.nodup_nil (fun q hq2 => absurd hq2 (List.not_mem_nil q))⟩

end QuizCraft
